import Mathlib

set_option maxRecDepth 4000

/-!
Verification of the NewareNDA ndax/ndc binary decoder
(`src/NewareNDA/NewareNDAx.py`) against its natural-language specification.

The Python source is shallowly embedded: byte buffers are `List Nat`
(each element one byte value), `struct.unpack` reads become little-endian
reads over list slices, Python floats produced by exact integer scaling are
modelled as `ℚ`, fallible operations (`struct.error`, `KeyError`,
`ValueError` from `datetime`/`astype`) are modelled with `Option`.
The lookup tables `state_dict` / `multiplier_dict` live in
`NewareNDA/dicts.py`, which is not part of the sources; decoders therefore
take the two tables as association-list parameters.
-/

/-! ## Little-endian byte readers (struct.unpack fragments) -/

/-- Value of a little-endian byte string (first byte least significant). -/
def leVal : List Nat → Nat
  | [] => 0
  | b :: t => b + 256 * leVal t

/-- Read `n` bytes at offset `off` as an unsigned little-endian integer.
Mirrors `struct.unpack` of an unsigned field on `bytes[off:off+n]`:
it fails (`struct.error`) unless the slice has exactly `n` bytes. -/
def readU (buf : List Nat) (off n : Nat) : Option Nat :=
  let s := (buf.drop off).take n
  if s.length = n then some (leVal s) else none

/-- Two's-complement reinterpretation of an unsigned `bits`-bit value. -/
def toSigned (bits : Nat) (v : Nat) : Int :=
  if v < 2 ^ (bits - 1) then (v : Int) else (v : Int) - 2 ^ bits

/-- Read `n` bytes at offset `off` as a signed little-endian integer
(`struct.unpack` of `<i`, `<q`, `<h`, `<b` fields). -/
def readI (buf : List Nat) (off n : Nat) : Option Int :=
  (readU buf off n).map (toSigned (8 * n))

/-- Little-endian encoding of `v` on `w` bytes (for building synthetic slices). -/
def encW : Nat → Nat → List Nat
  | 0, _ => []
  | w + 1, v => v % 256 :: encW w (v / 256)

/-- Little-endian two's-complement encoding of `x` on `w` bytes. -/
def encI (w : Nat) (x : Int) : List Nat := encW w (x % ((2 : Int) ^ (8 * w))).toNat

theorem encW_length (w v : Nat) : (encW w v).length = w := by
  induction w generalizing v with
  | zero => rfl
  | succ w ih => simp [encW, ih]

theorem encI_length (w : Nat) (x : Int) : (encI w x).length = w := by
  simp [encI, encW_length]

theorem leVal_encW (w v : Nat) (h : v < 256 ^ w) : leVal (encW w v) = v := by
  induction w generalizing v with
  | zero => simp [encW, leVal]; omega
  | succ w ih =>
    have hdiv : v / 256 < 256 ^ w := by
      have : v < 256 * 256 ^ w := by
        have := pow_succ 256 w
        omega
      exact Nat.div_lt_of_lt_mul this
    simp [encW, leVal, ih _ hdiv]
    omega

theorem toSigned_encI4 (x : Int) (h1 : -(2 ^ 31) ≤ x) (h2 : x < 2 ^ 31) :
    toSigned 32 (leVal (encI 4 x)) = x := by
  have hb : (x % ((2 : Int) ^ 32)).toNat < 256 ^ 4 := by
    have := Int.emod_nonneg x (by norm_num : ((2 : Int) ^ 32) ≠ 0)
    have := Int.emod_lt_of_pos x (by norm_num : (0 : Int) < (2 : Int) ^ 32)
    norm_num at *
    omega
  rw [show encI 4 x = encW 4 (x % ((2 : Int) ^ (8 * 4))).toNat from rfl]
  norm_num
  rw [leVal_encW _ _ (by norm_num at hb ⊢; omega)]
  unfold toSigned
  split <;> rename_i hc <;> (norm_num at *) <;> omega

theorem toSigned_encI8 (x : Int) (h1 : -(2 ^ 63) ≤ x) (h2 : x < 2 ^ 63) :
    toSigned 64 (leVal (encI 8 x)) = x := by
  have hb : (x % ((2 : Int) ^ 64)).toNat < 256 ^ 8 := by
    have := Int.emod_nonneg x (by norm_num : ((2 : Int) ^ 64) ≠ 0)
    have := Int.emod_lt_of_pos x (by norm_num : (0 : Int) < (2 : Int) ^ 64)
    norm_num at *
    omega
  rw [show encI 8 x = encW 8 (x % ((2 : Int) ^ (8 * 8))).toNat from rfl]
  norm_num
  rw [leVal_encW _ _ (by norm_num at hb ⊢; omega)]
  unfold toSigned
  split <;> rename_i hc <;> (norm_num at *) <;> omega

/-- If `buf.drop off` starts with `pre` of length `n`, the unsigned read
at `off` returns the little-endian value of `pre`. -/
theorem readU_eq (buf : List Nat) (off n : Nat) (pre suf : List Nat)
    (hd : buf.drop off = pre ++ suf) (hl : pre.length = n) :
    readU buf off n = some (leVal pre) := by
  subst hl
  simp [readU, hd, List.take_left]

theorem readI_eq (buf : List Nat) (off n : Nat) (pre suf : List Nat)
    (hd : buf.drop off = pre ++ suf) (hl : pre.length = n) :
    readI buf off n = some (toSigned (8 * n) (leVal pre)) := by
  simp [readI, readU_eq buf off n pre suf hd hl]

/-- A successful `n`-byte read (`0 < n`) needs `off + n` bytes in the buffer. -/
theorem readU_some_length {buf : List Nat} {off n v : Nat} (hn : 0 < n)
    (h : readU buf off n = some v) : off + n ≤ buf.length := by
  simp only [readU] at h
  split at h
  · rename_i hcond
    simp [List.length_take, List.length_drop] at hcond
    omega
  · exact absurd h (by simp)

/-- If the buffer is long enough the read succeeds. -/
theorem readU_eq_of_le {buf : List Nat} {off n : Nat} (h : off + n ≤ buf.length) :
    readU buf off n = some (leVal ((buf.drop off).take n)) := by
  have : ((buf.drop off).take n).length = n := by
    simp [List.length_take, List.length_drop]; omega
  simp [readU, this]

/-! ## Python `datetime` construction (validity checks of `datetime(Y,M,D,h,m,s)`) -/

/-- A Python `datetime.datetime` value as assembled by the decoder. -/
structure PyDatetime where
  year : Nat
  month : Nat
  day : Nat
  hour : Nat
  minute : Nat
  second : Nat
deriving DecidableEq, Repr

def isLeapYear (y : Nat) : Bool :=
  decide ((y % 4 = 0 ∧ y % 100 ≠ 0) ∨ y % 400 = 0)

def daysInMonth (y m : Nat) : Nat :=
  if m = 2 then (if isLeapYear y then 29 else 28)
  else if m = 4 ∨ m = 6 ∨ m = 9 ∨ m = 11 then 30
  else 31

/-- The argument checks performed by Python's `datetime` constructor
(`MINYEAR = 1`, `MAXYEAR = 9999`); invalid values raise `ValueError`. -/
def validDate (Y M D h m s : Nat) : Bool :=
  decide (1 ≤ Y ∧ Y ≤ 9999 ∧ 1 ≤ M ∧ M ≤ 12 ∧ 1 ≤ D ∧ D ≤ daysInMonth Y M ∧
          h ≤ 23 ∧ m ≤ 59 ∧ s ≤ 59)

/-- `datetime(Y, M, D, h, m, s)`: a calendar value, or an error. -/
def mkDatetime (Y M D h m s : Nat) : Option PyDatetime :=
  if validDate Y M D h m s then some ⟨Y, M, D, h, m, s⟩ else none

/-! ## Legacy main-record decoder (`_bytes_to_list_ndc`) -/

/-- One decoded legacy main record, fields in the order the Python decoder
builds its record list (`rec_columns`). -/
structure MainRec where
  Index : Nat
  Cycle : Nat
  Step : Nat
  Status : String
  Time : ℚ
  Voltage : ℚ
  Current : ℚ
  Charge_Capacity : ℚ
  Discharge_Capacity : ℚ
  Charge_Energy : ℚ
  Discharge_Energy : ℚ
  Timestamp : PyDatetime
deriving DecidableEq, Repr

/-- The unsigned fields of a legacy main record
(`struct.unpack` lines for `<II`, `<B`, `<B`, `<Q`). -/
structure MainU where
  Index : Nat
  Cycle : Nat
  Step : Nat
  Status : Nat
  Time : Nat
deriving DecidableEq, Repr

/-- The signed fields of a legacy main record
(`struct.unpack` lines for `<ii`, `<qq`, `<qq`). -/
structure MainS where
  Voltage : Int
  Current : Int
  ChargeCap : Int
  DischargeCap : Int
  ChargeEn : Int
  DischargeEn : Int
deriving DecidableEq, Repr

/-- The packed calendar fields of a legacy main record
(`struct.unpack('<HBBBBB', bytes[75:82])`). -/
structure MainD where
  Y : Nat
  M : Nat
  D : Nat
  hh : Nat
  mi : Nat
  ss : Nat
deriving DecidableEq, Repr

/-- Unsigned unpack stage of `_bytes_to_list_ndc`:
index u32@8, cycle u32@12, step u8@16, status u8@17, time u64@23. -/
def parseMainU (bs : List Nat) : Option MainU :=
  (readU bs 8 4).bind fun Index =>
  (readU bs 12 4).bind fun Cycle =>
  (readU bs 16 1).bind fun Step =>
  (readU bs 17 1).bind fun Status =>
  (readU bs 23 8).bind fun Time =>
  some ⟨Index, Cycle, Step, Status, Time⟩

/-- Signed unpack stage of `_bytes_to_list_ndc`:
voltage i32@31, current i32@35, capacities i64@43/51, energies i64@59/67. -/
def parseMainS (bs : List Nat) : Option MainS :=
  (readI bs 31 4).bind fun Voltage =>
  (readI bs 35 4).bind fun Current =>
  (readI bs 43 8).bind fun ChargeCap =>
  (readI bs 51 8).bind fun DischargeCap =>
  (readI bs 59 8).bind fun ChargeEn =>
  (readI bs 67 8).bind fun DischargeEn =>
  some ⟨Voltage, Current, ChargeCap, DischargeCap, ChargeEn, DischargeEn⟩

/-- Calendar unpack stage of `_bytes_to_list_ndc`: `<HBBBBB` at 75..82. -/
def parseMainD (bs : List Nat) : Option MainD :=
  (readU bs 75 2).bind fun Y =>
  (readU bs 77 1).bind fun M =>
  (readU bs 78 1).bind fun D =>
  (readU bs 79 1).bind fun hh =>
  (readU bs 80 1).bind fun mi =>
  (readU bs 81 1).bind fun ss =>
  some ⟨Y, M, D, hh, mi, ss⟩

/-- `_bytes_to_list_ndc`: decode a legacy 94-byte main-record slice.
`mdict` models `multiplier_dict` and `sdict` models `state_dict`
(from `NewareNDA/dicts.py`, not among the sources); a missing key is a
`KeyError`, i.e. `none`.  All arithmetic on exactly scaled values is in `ℚ`. -/
def bytes_to_list_ndc (mdict : List (Int × ℚ)) (sdict : List (Int × String))
    (bs : List Nat) : Option MainRec :=
  (parseMainU bs).bind fun u =>
  (parseMainS bs).bind fun v =>
  (parseMainD bs).bind fun d =>
  (readI bs 82 4).bind fun Range =>
  (mdict.lookup Range).bind fun multiplier =>
  (sdict.lookup (u.Status : Int)).bind fun state =>
  (mkDatetime d.Y d.M d.D d.hh d.mi d.ss).bind fun ts =>
  some { Index := u.Index
         Cycle := u.Cycle + 1
         Step := u.Step
         Status := state
         Time := (u.Time : ℚ) / 1000
         Voltage := (v.Voltage : ℚ) / 10000
         Current := (v.Current : ℚ) * multiplier
         Charge_Capacity := (v.ChargeCap : ℚ) * multiplier / 3600
         Discharge_Capacity := (v.DischargeCap : ℚ) * multiplier / 3600
         Charge_Energy := (v.ChargeEn : ℚ) * multiplier / 3600
         Discharge_Energy := (v.DischargeEn : ℚ) * multiplier / 3600
         Timestamp := ts }

/-! ## Legacy auxiliary-record decoders -/

/-- One decoded auxiliary record.  Variant A (type byte `0x65`) has no
aux-time field (`t = none`); variant B (type byte `0x74`) has one.
`variant` records the leading type byte that routed the slice. -/
structure AuxRec where
  Index : Nat
  Aux : Nat
  V : ℚ
  T : ℚ
  t : Option ℚ
  variant : Nat
deriving DecidableEq, Repr

/-- `_aux_bytes_65_to_list_ndc`. -/
def aux_bytes_65_to_list_ndc (bs : List Nat) : Option AuxRec :=
  (readU bs 3 1).bind fun Aux =>
  (readU bs 8 4).bind fun Index =>
  (readI bs 41 2).bind fun T =>
  (readI bs 31 4).bind fun V =>
  some ⟨Index, Aux, (V : ℚ) / 10000, (T : ℚ) / 10, none, 0x65⟩

/-- `_aux_bytes_74_to_list_ndc`. -/
def aux_bytes_74_to_list_ndc (bs : List Nat) : Option AuxRec :=
  (readU bs 3 1).bind fun Aux =>
  (readU bs 8 4).bind fun Index =>
  (readI bs 31 4).bind fun V =>
  (readI bs 41 2).bind fun T =>
  (readI bs 43 2).bind fun t =>
  some ⟨Index, Aux, (V : ℚ) / 10000, (T : ℚ) / 10, some ((t : ℚ) / 10), 0x74⟩

/-! ## Synthetic legacy main-record slices

`buildMainSlice` lays out known field values at the documented offsets of
the 94-byte legacy main-record layout (type byte `0x55` at offset 0,
index u32@8, cycle u32@12, step u8@16, status u8@17, time u64@23,
voltage i32@31, current i32@35, capacities i64@43/51, energies i64@59/67,
packed date u16+5×u8@75..82, range i32@82); undocumented gap bytes are 0. -/

/-- The raw field values a synthetic legacy main-record slice is built from. -/
structure RawFields where
  idx : Nat
  cyc : Nat
  step : Nat
  status : Nat
  time : Nat
  volt : Int
  cur : Int
  cc : Int
  dc : Int
  ce : Int
  de : Int
  Y : Nat
  M : Nat
  D : Nat
  h : Nat
  m : Nat
  s : Nat
  range : Int

def tail86 (_f : RawFields) : List Nat := List.replicate 8 0

def tail82 (f : RawFields) : List Nat := encI 4 f.range ++ tail86 f

def tail77 (f : RawFields) : List Nat := f.M :: f.D :: f.h :: f.m :: f.s :: tail82 f

def tail75 (f : RawFields) : List Nat := encW 2 f.Y ++ tail77 f

def tail67 (f : RawFields) : List Nat := encI 8 f.de ++ tail75 f

def tail59 (f : RawFields) : List Nat := encI 8 f.ce ++ tail67 f

def tail51 (f : RawFields) : List Nat := encI 8 f.dc ++ tail59 f

def tail43 (f : RawFields) : List Nat := encI 8 f.cc ++ tail51 f

def tail39 (f : RawFields) : List Nat := List.replicate 4 0 ++ tail43 f

def tail35 (f : RawFields) : List Nat := encI 4 f.cur ++ tail39 f

def tail31 (f : RawFields) : List Nat := encI 4 f.volt ++ tail35 f

def tail23 (f : RawFields) : List Nat := encW 8 f.time ++ tail31 f

def tail18 (f : RawFields) : List Nat := List.replicate 5 0 ++ tail23 f

def tail17 (f : RawFields) : List Nat := f.status :: tail18 f

def tail16 (f : RawFields) : List Nat := f.step :: tail17 f

def tail12 (f : RawFields) : List Nat := encW 4 f.cyc ++ tail16 f

/-- A synthetic 94-byte legacy main-record slice built from known values. -/
def buildMainSlice (f : RawFields) : List Nat :=
  0x55 :: List.replicate 7 0 ++ encW 4 f.idx ++ tail12 f

theorem drop_append_len {α : Type} (l₁ l₂ : List α) (n : Nat) (h : l₁.length = n) :
    (l₁ ++ l₂).drop n = l₂ := by
  subst h; exact List.drop_left l₁ l₂

theorem drop_build_8 (f : RawFields) :
    (buildMainSlice f).drop 8 = encW 4 f.idx ++ tail12 f := by
  have h : buildMainSlice f =
      (0x55 :: List.replicate 7 0) ++ (encW 4 f.idx ++ tail12 f) := by
    simp [buildMainSlice]
  rw [h, drop_append_len _ _ 8 (by simp)]

theorem drop_build_12 (f : RawFields) :
    (buildMainSlice f).drop 12 = encW 4 f.cyc ++ tail16 f := by
  rw [show (12 : Nat) = 8 + 4 from rfl, ← List.drop_drop, drop_build_8,
      drop_append_len _ _ 4 (encW_length 4 f.idx)]
  rfl

theorem drop_build_16 (f : RawFields) :
    (buildMainSlice f).drop 16 = f.step :: tail17 f := by
  rw [show (16 : Nat) = 12 + 4 from rfl, ← List.drop_drop, drop_build_12,
      drop_append_len _ _ 4 (encW_length 4 f.cyc)]
  rfl

theorem drop_build_17 (f : RawFields) :
    (buildMainSlice f).drop 17 = f.status :: tail18 f := by
  rw [show (17 : Nat) = 16 + 1 from rfl, ← List.drop_drop, drop_build_16]
  rfl

theorem drop_build_23 (f : RawFields) :
    (buildMainSlice f).drop 23 = encW 8 f.time ++ tail31 f := by
  rw [show (23 : Nat) = 17 + 6 from rfl, ← List.drop_drop, drop_build_17]
  show (tail18 f).drop 5 = _
  rw [tail18, drop_append_len _ _ 5 (by simp)]
  rfl

theorem drop_build_31 (f : RawFields) :
    (buildMainSlice f).drop 31 = encI 4 f.volt ++ tail35 f := by
  rw [show (31 : Nat) = 23 + 8 from rfl, ← List.drop_drop, drop_build_23,
      drop_append_len _ _ 8 (encW_length 8 f.time)]
  rfl

theorem drop_build_35 (f : RawFields) :
    (buildMainSlice f).drop 35 = encI 4 f.cur ++ tail39 f := by
  rw [show (35 : Nat) = 31 + 4 from rfl, ← List.drop_drop, drop_build_31,
      drop_append_len _ _ 4 (encI_length 4 f.volt)]
  rfl

theorem drop_build_39 (f : RawFields) :
    (buildMainSlice f).drop 39 = List.replicate 4 0 ++ tail43 f := by
  rw [show (39 : Nat) = 35 + 4 from rfl, ← List.drop_drop, drop_build_35,
      drop_append_len _ _ 4 (encI_length 4 f.cur)]
  rfl

theorem drop_build_43 (f : RawFields) :
    (buildMainSlice f).drop 43 = encI 8 f.cc ++ tail51 f := by
  rw [show (43 : Nat) = 39 + 4 from rfl, ← List.drop_drop, drop_build_39,
      drop_append_len _ _ 4 (by simp)]
  rfl

theorem drop_build_51 (f : RawFields) :
    (buildMainSlice f).drop 51 = encI 8 f.dc ++ tail59 f := by
  rw [show (51 : Nat) = 43 + 8 from rfl, ← List.drop_drop, drop_build_43,
      drop_append_len _ _ 8 (encI_length 8 f.cc)]
  rfl

theorem drop_build_59 (f : RawFields) :
    (buildMainSlice f).drop 59 = encI 8 f.ce ++ tail67 f := by
  rw [show (59 : Nat) = 51 + 8 from rfl, ← List.drop_drop, drop_build_51,
      drop_append_len _ _ 8 (encI_length 8 f.dc)]
  rfl

theorem drop_build_67 (f : RawFields) :
    (buildMainSlice f).drop 67 = encI 8 f.de ++ tail75 f := by
  rw [show (67 : Nat) = 59 + 8 from rfl, ← List.drop_drop, drop_build_59,
      drop_append_len _ _ 8 (encI_length 8 f.ce)]
  rfl

theorem drop_build_75 (f : RawFields) :
    (buildMainSlice f).drop 75 = encW 2 f.Y ++ tail77 f := by
  rw [show (75 : Nat) = 67 + 8 from rfl, ← List.drop_drop, drop_build_67,
      drop_append_len _ _ 8 (encI_length 8 f.de)]
  rfl

theorem drop_build_77 (f : RawFields) :
    (buildMainSlice f).drop 77 = f.M :: f.D :: f.h :: f.m :: f.s :: tail82 f := by
  rw [show (77 : Nat) = 75 + 2 from rfl, ← List.drop_drop, drop_build_75,
      drop_append_len _ _ 2 (encW_length 2 f.Y)]
  rfl

theorem drop_build_78 (f : RawFields) :
    (buildMainSlice f).drop 78 = f.D :: f.h :: f.m :: f.s :: tail82 f := by
  rw [show (78 : Nat) = 77 + 1 from rfl, ← List.drop_drop, drop_build_77]
  rfl

theorem drop_build_79 (f : RawFields) :
    (buildMainSlice f).drop 79 = f.h :: f.m :: f.s :: tail82 f := by
  rw [show (79 : Nat) = 78 + 1 from rfl, ← List.drop_drop, drop_build_78]
  rfl

theorem drop_build_80 (f : RawFields) :
    (buildMainSlice f).drop 80 = f.m :: f.s :: tail82 f := by
  rw [show (80 : Nat) = 79 + 1 from rfl, ← List.drop_drop, drop_build_79]
  rfl

theorem drop_build_81 (f : RawFields) :
    (buildMainSlice f).drop 81 = f.s :: tail82 f := by
  rw [show (81 : Nat) = 80 + 1 from rfl, ← List.drop_drop, drop_build_80]
  rfl

theorem drop_build_82 (f : RawFields) :
    (buildMainSlice f).drop 82 = encI 4 f.range ++ tail86 f := by
  rw [show (82 : Nat) = 81 + 1 from rfl, ← List.drop_drop, drop_build_81]
  rfl

theorem leVal_singleton (b : Nat) : leVal [b] = b := by simp [leVal]

theorem build_idx (f : RawFields) (h : f.idx < 2 ^ 32) :
    readU (buildMainSlice f) 8 4 = some f.idx := by
  rw [readU_eq _ _ _ _ _ (drop_build_8 f) (encW_length 4 f.idx),
      leVal_encW 4 f.idx (by norm_num at h ⊢; omega)]

theorem build_cyc (f : RawFields) (h : f.cyc < 2 ^ 32) :
    readU (buildMainSlice f) 12 4 = some f.cyc := by
  rw [readU_eq _ _ _ _ _ (drop_build_12 f) (encW_length 4 f.cyc),
      leVal_encW 4 f.cyc (by norm_num at h ⊢; omega)]

theorem build_step (f : RawFields) :
    readU (buildMainSlice f) 16 1 = some f.step := by
  rw [readU_eq _ 16 1 [f.step] (tail17 f) (by rw [drop_build_16]; rfl) rfl,
      leVal_singleton]

theorem build_status (f : RawFields) :
    readU (buildMainSlice f) 17 1 = some f.status := by
  rw [readU_eq _ 17 1 [f.status] (tail18 f) (by rw [drop_build_17]; rfl) rfl,
      leVal_singleton]

theorem build_time (f : RawFields) (h : f.time < 2 ^ 64) :
    readU (buildMainSlice f) 23 8 = some f.time := by
  rw [readU_eq _ _ _ _ _ (drop_build_23 f) (encW_length 8 f.time),
      leVal_encW 8 f.time (by norm_num at h ⊢; omega)]

theorem build_volt (f : RawFields) (h1 : -(2 ^ 31) ≤ f.volt) (h2 : f.volt < 2 ^ 31) :
    readI (buildMainSlice f) 31 4 = some f.volt := by
  rw [readI_eq _ _ _ _ _ (drop_build_31 f) (encI_length 4 f.volt)]
  norm_num [toSigned_encI4 f.volt h1 h2]

theorem build_cur (f : RawFields) (h1 : -(2 ^ 31) ≤ f.cur) (h2 : f.cur < 2 ^ 31) :
    readI (buildMainSlice f) 35 4 = some f.cur := by
  rw [readI_eq _ _ _ _ _ (drop_build_35 f) (encI_length 4 f.cur)]
  norm_num [toSigned_encI4 f.cur h1 h2]

theorem build_cc (f : RawFields) (h1 : -(2 ^ 63) ≤ f.cc) (h2 : f.cc < 2 ^ 63) :
    readI (buildMainSlice f) 43 8 = some f.cc := by
  rw [readI_eq _ _ _ _ _ (drop_build_43 f) (encI_length 8 f.cc)]
  norm_num [toSigned_encI8 f.cc h1 h2]

theorem build_dc (f : RawFields) (h1 : -(2 ^ 63) ≤ f.dc) (h2 : f.dc < 2 ^ 63) :
    readI (buildMainSlice f) 51 8 = some f.dc := by
  rw [readI_eq _ _ _ _ _ (drop_build_51 f) (encI_length 8 f.dc)]
  norm_num [toSigned_encI8 f.dc h1 h2]

theorem build_ce (f : RawFields) (h1 : -(2 ^ 63) ≤ f.ce) (h2 : f.ce < 2 ^ 63) :
    readI (buildMainSlice f) 59 8 = some f.ce := by
  rw [readI_eq _ _ _ _ _ (drop_build_59 f) (encI_length 8 f.ce)]
  norm_num [toSigned_encI8 f.ce h1 h2]

theorem build_de (f : RawFields) (h1 : -(2 ^ 63) ≤ f.de) (h2 : f.de < 2 ^ 63) :
    readI (buildMainSlice f) 67 8 = some f.de := by
  rw [readI_eq _ _ _ _ _ (drop_build_67 f) (encI_length 8 f.de)]
  norm_num [toSigned_encI8 f.de h1 h2]

theorem build_Y (f : RawFields) (h : f.Y < 2 ^ 16) :
    readU (buildMainSlice f) 75 2 = some f.Y := by
  rw [readU_eq _ _ _ _ _ (drop_build_75 f) (encW_length 2 f.Y),
      leVal_encW 2 f.Y (by norm_num at h ⊢; omega)]

theorem build_M (f : RawFields) :
    readU (buildMainSlice f) 77 1 = some f.M := by
  rw [readU_eq _ 77 1 [f.M] (f.D :: f.h :: f.m :: f.s :: tail82 f)
        (by rw [drop_build_77]; rfl) rfl, leVal_singleton]

theorem build_D (f : RawFields) :
    readU (buildMainSlice f) 78 1 = some f.D := by
  rw [readU_eq _ 78 1 [f.D] (f.h :: f.m :: f.s :: tail82 f)
        (by rw [drop_build_78]; rfl) rfl, leVal_singleton]

theorem build_h (f : RawFields) :
    readU (buildMainSlice f) 79 1 = some f.h := by
  rw [readU_eq _ 79 1 [f.h] (f.m :: f.s :: tail82 f)
        (by rw [drop_build_79]; rfl) rfl, leVal_singleton]

theorem build_m (f : RawFields) :
    readU (buildMainSlice f) 80 1 = some f.m := by
  rw [readU_eq _ 80 1 [f.m] (f.s :: tail82 f)
        (by rw [drop_build_80]; rfl) rfl, leVal_singleton]

theorem build_s (f : RawFields) :
    readU (buildMainSlice f) 81 1 = some f.s := by
  rw [readU_eq _ 81 1 [f.s] (tail82 f)
        (by rw [drop_build_81]; rfl) rfl, leVal_singleton]

theorem build_range (f : RawFields) (h1 : -(2 ^ 31) ≤ f.range) (h2 : f.range < 2 ^ 31) :
    readI (buildMainSlice f) 82 4 = some f.range := by
  rw [readI_eq _ _ _ _ _ (drop_build_82 f) (encI_length 4 f.range)]
  norm_num [toSigned_encI4 f.range h1 h2]

theorem parseMainU_build (f : RawFields) (hidx : f.idx < 2 ^ 32)
    (hcyc : f.cyc < 2 ^ 32) (htime : f.time < 2 ^ 64) :
    parseMainU (buildMainSlice f) =
      some ⟨f.idx, f.cyc, f.step, f.status, f.time⟩ := by
  rw [parseMainU, build_idx f hidx, build_cyc f hcyc, build_step f,
      build_status f, build_time f htime]
  rfl

theorem parseMainS_build (f : RawFields)
    (hv1 : -(2 ^ 31) ≤ f.volt) (hv2 : f.volt < 2 ^ 31)
    (hc1 : -(2 ^ 31) ≤ f.cur) (hc2 : f.cur < 2 ^ 31)
    (hcc1 : -(2 ^ 63) ≤ f.cc) (hcc2 : f.cc < 2 ^ 63)
    (hdc1 : -(2 ^ 63) ≤ f.dc) (hdc2 : f.dc < 2 ^ 63)
    (hce1 : -(2 ^ 63) ≤ f.ce) (hce2 : f.ce < 2 ^ 63)
    (hde1 : -(2 ^ 63) ≤ f.de) (hde2 : f.de < 2 ^ 63) :
    parseMainS (buildMainSlice f) =
      some ⟨f.volt, f.cur, f.cc, f.dc, f.ce, f.de⟩ := by
  rw [parseMainS, build_volt f hv1 hv2, build_cur f hc1 hc2,
      build_cc f hcc1 hcc2, build_dc f hdc1 hdc2, build_ce f hce1 hce2,
      build_de f hde1 hde2]
  rfl

theorem parseMainD_build (f : RawFields) (hY : f.Y < 2 ^ 16) :
    parseMainD (buildMainSlice f) =
      some ⟨f.Y, f.M, f.D, f.h, f.m, f.s⟩ := by
  rw [parseMainD, build_Y f hY, build_M f, build_D f, build_h f,
      build_m f, build_s f]
  rfl

/-- Master round-trip lemma: decoding a synthetic slice built from in-range
field values yields exactly the documented scalings of those values. -/
theorem decode_build (mdict : List (Int × ℚ)) (sdict : List (Int × String))
    (f : RawFields) (mult : ℚ) (st : String)
    (hidx : f.idx < 2 ^ 32) (hcyc : f.cyc < 2 ^ 32) (htime : f.time < 2 ^ 64)
    (hv1 : -(2 ^ 31) ≤ f.volt) (hv2 : f.volt < 2 ^ 31)
    (hc1 : -(2 ^ 31) ≤ f.cur) (hc2 : f.cur < 2 ^ 31)
    (hcc1 : -(2 ^ 63) ≤ f.cc) (hcc2 : f.cc < 2 ^ 63)
    (hdc1 : -(2 ^ 63) ≤ f.dc) (hdc2 : f.dc < 2 ^ 63)
    (hce1 : -(2 ^ 63) ≤ f.ce) (hce2 : f.ce < 2 ^ 63)
    (hde1 : -(2 ^ 63) ≤ f.de) (hde2 : f.de < 2 ^ 63)
    (hY : f.Y < 2 ^ 16)
    (hr1 : -(2 ^ 31) ≤ f.range) (hr2 : f.range < 2 ^ 31)
    (hmul : mdict.lookup f.range = some mult)
    (hst : sdict.lookup (f.status : Int) = some st)
    (hdate : validDate f.Y f.M f.D f.h f.m f.s = true) :
    bytes_to_list_ndc mdict sdict (buildMainSlice f) =
      some { Index := f.idx
             Cycle := f.cyc + 1
             Step := f.step
             Status := st
             Time := (f.time : ℚ) / 1000
             Voltage := (f.volt : ℚ) / 10000
             Current := (f.cur : ℚ) * mult
             Charge_Capacity := (f.cc : ℚ) * mult / 3600
             Discharge_Capacity := (f.dc : ℚ) * mult / 3600
             Charge_Energy := (f.ce : ℚ) * mult / 3600
             Discharge_Energy := (f.de : ℚ) * mult / 3600
             Timestamp := ⟨f.Y, f.M, f.D, f.h, f.m, f.s⟩ } := by
  rw [bytes_to_list_ndc,
      parseMainU_build f hidx hcyc htime,
      parseMainS_build f hv1 hv2 hc1 hc2 hcc1 hcc2 hdc1 hdc2 hce1 hce2 hde1 hde2,
      parseMainD_build f hY, build_range f hr1 hr2]
  simp only [Option.some_bind, hmul, hst, mkDatetime, hdate, if_true]

/-! ## Legacy stream scanner (`read_ndc`) -/

/-- Whether the byte pattern `pat` occurs in `buf` at position `p`
(the full pattern must fit, as for `mmap.find`). -/
def matchesAt (pat buf : List Nat) (p : Nat) : Bool :=
  (buf.drop p).take pat.length == pat

/-- `mmap.find(pat, start)`: lowest position `≥ start` where `pat` occurs,
`none` standing for Python's `-1`. -/
def findFrom (pat buf : List Nat) (start : Nat) : Option Nat :=
  ((List.range (buf.length + 1)).filter
    (fun p => decide (start ≤ p) && matchesAt pat buf p)).head?

theorem findFrom_some {pat buf : List Nat} {start p : Nat}
    (h : findFrom pat buf start = some p) :
    start ≤ p ∧ matchesAt pat buf p = true := by
  rw [findFrom] at h
  have hmem : p ∈ (List.range (buf.length + 1)).filter
      (fun q => decide (start ≤ q) && matchesAt pat buf q) := by
    cases hl : (List.range (buf.length + 1)).filter
        (fun q => decide (start ≤ q) && matchesAt pat buf q) with
    | nil => rw [hl] at h; exact absurd h (by simp)
    | cons a t =>
      rw [hl] at h
      simp at h
      rw [← h]
      exact List.mem_cons_self a t
  have := List.of_mem_filter hmem
  simp at this
  exact this

/-- One iteration body of the `read_ndc` scan loop: route the slice by its
leading type byte (`0x55` main, `0x65`/`0x74` auxiliary, otherwise skipped
with a warning) and append the decoded record to the accumulators. -/
def readNdcDispatch (mdict : List (Int × ℚ)) (sdict : List (Int × String))
    (slice : List Nat) (acc : List MainRec × List AuxRec) :
    Option (List MainRec × List AuxRec) :=
  if slice.head? = some 0x55 then
    (bytes_to_list_ndc mdict sdict slice).map (fun r => (acc.1 ++ [r], acc.2))
  else if slice.head? = some 0x65 then
    (aux_bytes_65_to_list_ndc slice).map (fun r => (acc.1, acc.2 ++ [r]))
  else if slice.head? = some 0x74 then
    (aux_bytes_74_to_list_ndc slice).map (fun r => (acc.1, acc.2 ++ [r]))
  else some acc

/-- The scan loop of `read_ndc`: repeatedly decode the 94-byte slice at
`header`, then jump to the next occurrence of the 8-byte identifier.
Fuel-indexed; running out of fuel is treated as a failure, and every
theorem below conditions on a `some` result. -/
def readNdcLoop (mdict : List (Int × ℚ)) (sdict : List (Int × String))
    (buf ident : List Nat) :
    Nat → Nat → List MainRec × List AuxRec → Option (List MainRec × List AuxRec)
  | 0, _, _ => none
  | fuel + 1, header, acc =>
    match readNdcDispatch mdict sdict ((buf.drop header).take 94) acc with
    | none => none
    | some acc2 =>
      match findFrom ident buf (header + 94) with
      | none => some acc2
      | some h2 => readNdcLoop mdict sdict buf ident fuel h2 acc2

/-- The raw scan of `read_ndc` (record collection before post-processing):
identifier read at `517:525`, first record at offset 517. -/
def readNdcScan (mdict : List (Int × ℚ)) (sdict : List (Int × String))
    (buf : List Nat) : Option (List MainRec × List AuxRec) :=
  if buf.length < 517 then none
  else readNdcLoop mdict sdict buf ((buf.drop 517).take 8) (buf.length + 1) 517 ([], [])

/-- `df.drop_duplicates(subset='Index')`: keep the first record for each
Index value, in order. -/
def dedupByIndex : List MainRec → List MainRec
  | [] => []
  | r :: rs => r :: dedupByIndex (rs.filter (fun x => x.Index != r.Index))
termination_by l => l.length
decreasing_by
  simp only [List.length_cons]
  exact Nat.lt_succ_of_le (List.length_filter_le _ _)

/-- `df['Index'].is_monotonic_increasing` (non-strict, as in pandas). -/
def isMonoIdx (l : List MainRec) : Bool :=
  decide (List.Chain' (fun a b => a.Index ≤ b.Index) l)

/-- `df.sort_values('Index')`. -/
def sortByIndex (l : List MainRec) : List MainRec :=
  List.insertionSort (fun a b => a.Index ≤ b.Index) l

/-- Post-scan assembly of the main-record table: drop duplicate indices
keeping the first occurrence, then sort by Index if the order is not
already monotonic (`reset_index` is positional and has no list analogue). -/
def assembleMain (output : List MainRec) : List MainRec :=
  let d := dedupByIndex output
  if isMonoIdx d then d else sortByIndex d

/-- The auxiliary table returned by `read_ndc`: an empty DataFrame, or a
table whose column set is fixed by the identifier's leading byte
(`Index/Aux/V/T` for variant A, additionally `t` for variant B). -/
inductive AuxTable where
  | noAux : AuxTable
  | variantA : List AuxRec → AuxTable
  | variantB : List AuxRec → AuxTable
deriving DecidableEq, Repr

def auxColumns : AuxTable → List String
  | .noAux => []
  | .variantA _ => ["Index", "Aux", "V", "T"]
  | .variantB _ => ["Index", "Aux", "V", "T", "t"]

/-- `read_ndc`: scan the buffer, assemble the main table, and build the
auxiliary table according to the identifier's first byte. -/
def read_ndc (mdict : List (Int × ℚ)) (sdict : List (Int × String))
    (buf : List Nat) : Option (List MainRec × AuxTable) :=
  (readNdcScan mdict sdict buf).map (fun oa =>
    (assembleMain oa.1,
     if ((buf.drop 517).take 8).head? = some 0x55 then AuxTable.noAux
     else if ((buf.drop 517).take 8).head? = some 0x65 then AuxTable.variantA oa.2
     else if ((buf.drop 517).take 8).head? = some 0x74 then AuxTable.variantB oa.2
     else AuxTable.noAux))

/-! ## Fixed-block scanners (`read_ndc_8`, `read_data_runInfo_ndc8`,
`read_data_step_ndc8`) -/

/-- Python slice `l[a:-b]` with a negative stop: elements from position `a`
up to position `len - b`. -/
def pySliceNeg (l : List Nat) (a b : Nat) : List Nat :=
  (l.take (l.length - b)).drop a

/-- Consecutive `n`-byte chunks, structurally recursive on a fuel that the
wrapper instantiates with the list length (so that it evaluates
definitionally); the fuel never runs out for `n ≠ 0`. -/
def chunksOfAux (n : Nat) : Nat → List Nat → List (List Nat)
  | 0, _ => []
  | _ + 1, [] => []
  | fuel + 1, a :: t =>
    if n = 0 then []
    else (a :: t).take n :: chunksOfAux n fuel ((a :: t).drop n)

/-- Consecutive `n`-byte chunks of a list (`mm.read(record_len)` loop:
every chunk is full except possibly the last). -/
def chunksOf (n : Nat) (l : List Nat) : List (List Nat) :=
  chunksOfAux n l.length l

theorem chunksOfAux_nil (n fuel : Nat) : chunksOfAux n fuel [] = [] := by
  cases fuel <;> rfl

/-- `struct.iter_unpack(fmt, payload)` for a format of size `size`:
yields the consecutive `size`-byte sub-records, but raises `struct.error`
unless the payload length is an exact multiple of `size`. -/
def iterUnpack (size : Nat) (payload : List Nat) : Option (List (List Nat)) :=
  if size ≠ 0 ∧ payload.length % size = 0 then some (chunksOf size payload) else none

/-- `Option`-valued map over a list, failing if any element fails
(the per-block unpack loop: one `struct.error` aborts the scan). -/
def mapMOpt {α β : Type} (f : α → Option β) : List α → Option (List β)
  | [] => some []
  | a :: t => (f a).bind fun b => (mapMOpt f t).bind fun bs => some (b :: bs)

/-- One row of the `read_ndc_8` main-sample table.  `VoltageF32`/`CurrentF32`
hold the raw little-endian bit patterns of the two `<ff` floats
(the source computes `i[0]/10000` on the float; no verified claim depends
on these two values, so IEEE-754 decoding is kept at bit-pattern level). -/
structure Ndc8Row where
  Index : Nat
  VoltageF32 : Nat
  CurrentF32 : Nat
deriving DecidableEq, Repr

/-- `read_ndc_8`: skip the 4096-byte header, read 4096-byte blocks, unpack
each block's payload `bytes[132:-4]` as 8-byte `<ff` pairs, and number the
rows `df.index + 1`. -/
def read_ndc_8 (buf : List Nat) : Option (List Ndc8Row) :=
  if buf.length < 4096 then none
  else
    (mapMOpt (fun b => iterUnpack 8 (pySliceNeg b 132 4)) (chunksOf 4096 (buf.drop 4096))).map
      (fun blocks =>
        let pairs := blocks.flatten.map (fun s => (leVal (s.take 4), leVal (s.drop 4)))
        (List.enumFrom 1 pairs).map (fun p => ⟨p.1, p.2.1, p.2.2⟩))

/-- One raw run-info record (`<i29siii2s`: time i32@0, 29 skipped bytes,
timestamp i32@33, step i32@37, index i32@41, 2 skipped bytes), with the
`Time/1000` scaling applied at append time. -/
structure RunInfoRaw where
  Time : ℚ
  Timestamp : Int
  Step : Int
  Index : Int
deriving DecidableEq, Repr

def runInfoOfSlice (s : List Nat) : RunInfoRaw :=
  ⟨(toSigned 32 (leVal (s.take 4)) : ℚ) / 1000,
   toSigned 32 (leVal ((s.drop 33).take 4)),
   toSigned 32 (leVal ((s.drop 37).take 4)),
   toSigned 32 (leVal ((s.drop 41).take 4))⟩

/-- The record-collection part of `read_data_runInfo_ndc8`: block loop,
`<i29siii2s` unpack, zero-index padding rows dropped. -/
def read_data_runInfo_raw (buf : List Nat) : Option (List RunInfoRaw) :=
  if buf.length < 4096 then none
  else
    (mapMOpt (fun b => iterUnpack 47 (pySliceNeg b 132 63)) (chunksOf 4096 (buf.drop 4096))).map
      (fun blocks => (blocks.flatten.map runInfoOfSlice).filter (fun r => r.Index != 0))

/-- A run-info record after step normalization (`Step` is the
occurrence counter, no longer the raw value). -/
structure RunInfoRec where
  Time : ℚ
  Timestamp : Int
  Step : Nat
  Index : Int
deriving DecidableEq, Repr

/-- Modelled from the spec: helper of `_count_changes` (see `countChanges`). -/
def countChangesAux (prev : Int) (c : Nat) : List Int → List Nat
  | [] => []
  | x :: t => if x = prev then c :: countChangesAux prev c t
              else (c + 1) :: countChangesAux x (c + 1) t

/-- Modelled from the spec: `NewareNDA.NewareNDA._count_changes` lives in
`NewareNDA/NewareNDA.py`, which is not among the sources.  Spec §4.3:
"convert this into a monotonically increasing step-occurrence counter that
increments exactly when the raw value changes from the previous record
(a count distinct transitions transform)"; the counter starts at 1. -/
def countChanges : List Int → List Nat
  | [] => []
  | x :: t => 1 :: countChangesAux x 1 t

/-- `df['Step'] = _count_changes(df['Step'])`: replace the raw `Step` column
by the transition counter, leaving the other columns unchanged. -/
def applyCountChanges (rows : List RunInfoRaw) : List RunInfoRec :=
  List.zipWith (fun (r : RunInfoRaw) c => ⟨r.Time, r.Timestamp, c, r.Index⟩)
    rows (countChanges (rows.map (fun r => r.Step)))

/-- `read_data_runInfo_ndc8`. -/
def read_data_runInfo_ndc8 (buf : List Nat) : Option (List RunInfoRec) :=
  (read_data_runInfo_raw buf).map applyCountChanges

/-- One row of the step-summary table (`Step` is the 1-based row position
added as `df.index + 1`). -/
structure StepRec where
  Cycle : Int
  Step_Index : Int
  Status : String
  Step : Nat
deriving DecidableEq, Repr

/-- Decode one `<ii16sb12s` step sub-record (cycle i32@0, step-index i32@4,
16 skipped bytes, status i8@24, 12 skipped bytes): zero step-index rows are
padding (`some none`), otherwise the status byte must be in `state_dict`. -/
def stepRecOfSlice (sdict : List (Int × String)) (s : List Nat) :
    Option (Option (Int × Int × String)) :=
  let Cycle := toSigned 32 (leVal (s.take 4))
  let StepIdx := toSigned 32 (leVal ((s.drop 4).take 4))
  let Status := toSigned 8 (leVal ((s.drop 24).take 1))
  if StepIdx = 0 then some none
  else (sdict.lookup Status).map (fun st => some (Cycle + 1, StepIdx, st))

/-- `read_data_step_ndc8`. -/
def read_data_step_ndc8 (sdict : List (Int × String)) (buf : List Nat) :
    Option (List StepRec) :=
  if buf.length < 4096 then none
  else
    (mapMOpt (fun b => iterUnpack 37 (pySliceNeg b 132 5)) (chunksOf 4096 (buf.drop 4096))).bind
      (fun blocks =>
        (mapMOpt (stepRecOfSlice sdict) blocks.flatten).map
          (fun recs =>
            (List.enumFrom 1 (recs.filterMap id)).map
              (fun p => ⟨p.2.1, p.2.2.1, p.2.2.2, p.1⟩)))

/-! ## Merger for the fixed-block path (`read_ndax`, revision-8 branch) -/

/-- Forward fill with a carried last value. -/
def ffillAux {α : Type} (carry : Option α) : List (Option α) → List (Option α)
  | [] => []
  | none :: t => carry :: ffillAux carry t
  | some x :: t => some x :: ffillAux (some x) t

/-- pandas `Series.ffill`: propagate the last non-missing value forward. -/
def ffill {α : Type} (l : List (Option α)) : List (Option α) := ffillAux none l

/-- Position and value of the nearest non-missing entry strictly before `i`. -/
def lastKnownBefore (l : List (Option ℚ)) (i : Nat) : Option (Nat × ℚ) :=
  ((List.range i).reverse.filterMap (fun j => (l.getD j none).map (fun v => (j, v)))).head?

/-- Position and value of the nearest non-missing entry strictly after `i`. -/
def firstKnownAfter (l : List (Option ℚ)) (i : Nat) : Option (Nat × ℚ) :=
  ((List.range' (i + 1) (l.length - i - 1)).filterMap
    (fun j => (l.getD j none).map (fun v => (j, v)))).head?

/-- pandas `Series.interpolate(method='linear')` with the default forward
limit direction: leading missing values stay missing, interior gaps are
filled linearly on the integer positions, trailing missing values repeat
the last known value. -/
def interpolateLinear (l : List (Option ℚ)) : List (Option ℚ) :=
  (List.range l.length).map (fun i =>
    match l.getD i none with
    | some v => some v
    | none =>
      match lastKnownBefore l i with
      | none => none
      | some jv =>
        match firstKnownAfter l i with
        | none => some jv.2
        | some kv =>
          some (jv.2 + (kv.2 - jv.2) * ((i : ℚ) - (jv.1 : ℚ)) / ((kv.1 : ℚ) - (jv.1 : ℚ))))

/-- The numpy float→int cast used by `.astype(int)`: truncation toward zero. -/
def ratTruncToInt (q : ℚ) : Int := Int.tdiv q.num (q.den : Int)

/-- `.astype(int)` on a float column: raises `ValueError` if any value is
still missing (non-finite), otherwise truncates every value to an integer. -/
def astypeInt (l : List (Option ℚ)) : Option (List Int) :=
  l.mapM (fun o => o.map ratTruncToInt)

/-- A main-sample row after the left merge with run-info: the three merged
columns are missing (`NaN`) on rows with no matching run-info index. -/
structure MergedRow where
  Index : Nat
  VoltageF32 : Nat
  CurrentF32 : Nat
  Time : Option ℚ
  Timestamp : Option ℚ
  Step : Option Nat
deriving DecidableEq, Repr

/-- `data_df.merge(runInfo_df, how='left', on='Index')`: every left row is
kept in order; a row with matching run-info rows is repeated once per match,
a row without match gets missing merged columns.  The float Timestamp column
holds the integer epoch seconds as `ℚ` (pandas promotes to float). -/
def mergeRunInfo (main : List Ndc8Row) (runInfo : List RunInfoRec) : List MergedRow :=
  main.flatMap (fun r =>
    match runInfo.filter (fun ri => ri.Index == (r.Index : Int)) with
    | [] => [⟨r.Index, r.VoltageF32, r.CurrentF32, none, none, none⟩]
    | ms => ms.map (fun ri =>
        ⟨r.Index, r.VoltageF32, r.CurrentF32, some ri.Time, some ((ri.Timestamp : ℚ)), some ri.Step⟩))

/-- A fully assembled row of the revision-8 output table.  `Timestamp` is
the interpolated integer epoch seconds; the `datetime.fromtimestamp`
rendering of that integer is local-timezone dependent and not modelled. -/
structure FinalRow where
  Index : Nat
  VoltageF32 : Nat
  CurrentF32 : Nat
  Time : Option ℚ
  Timestamp : Int
  Step : Option Nat
  Cycle : Option Int
  Step_Index : Option Int
  Status : Option String
deriving DecidableEq, Repr

/-- Positional reassembly of the merged table with its forward-filled Step
column, interpolated Time column and integer Timestamp column. -/
def rebuildRows : List MergedRow → List (Option Nat) → List (Option ℚ) → List Int →
    List (MergedRow × Int)
  | m :: ms, st :: sts, t :: ts, z :: zs =>
    ({ m with Step := st, Time := t }, z) :: rebuildRows ms sts ts zs
  | _, _, _, _ => []

/-- `data_df.merge(step_df, how='left', on='Step')`: a missing (`NaN`) Step
key matches nothing; an unmatched key leaves the step columns missing. -/
def joinStepDf (stepDf : List StepRec) (rows : List (MergedRow × Int)) : List FinalRow :=
  rows.flatMap (fun rz =>
    match rz.1.Step with
    | none => [⟨rz.1.Index, rz.1.VoltageF32, rz.1.CurrentF32, rz.1.Time, rz.2,
                none, none, none, none⟩]
    | some st =>
      match stepDf.filter (fun sd => sd.Step == st) with
      | [] => [⟨rz.1.Index, rz.1.VoltageF32, rz.1.CurrentF32, rz.1.Time, rz.2,
                some st, none, none, none⟩]
      | ms => ms.map (fun sd =>
          ⟨rz.1.Index, rz.1.VoltageF32, rz.1.CurrentF32, rz.1.Time, rz.2,
           some st, some sd.Cycle, some sd.Step_Index, some sd.Status⟩))

/-- The revision-8 assembly of `read_ndax` (lines 52–63 of the source):
truncate the main samples to `Index ≤` the last run-info index
(`iat[-1]` on an empty run-info table is an error), left-join with
run-info on Index, forward-fill Step, linearly interpolate Time, linearly
interpolate Timestamp and cast it to int (`ValueError` if a missing value
remains), then left-join with the step table on Step. -/
def mergeNdax (main : List Ndc8Row) (runInfo : List RunInfoRec)
    (stepDf : List StepRec) : Option (List FinalRow) :=
  ((runInfo.map (fun r => r.Index)).getLast?).bind (fun lastIdx =>
    let truncated := main.filter (fun r => decide ((r.Index : Int) ≤ lastIdx))
    let merged := mergeRunInfo truncated runInfo
    let steps := ffill (merged.map (fun r => r.Step))
    let times := interpolateLinear (merged.map (fun r => r.Time))
    (astypeInt (interpolateLinear (merged.map (fun r => r.Timestamp)))).map (fun tss =>
      joinStepDf stepDf (rebuildRows merged steps times tss)))

/-! ## Version router (`read_ndax`) -/

/-- The assembled table returned by `read_ndax`: one of the two paths. -/
inductive NdaxOut where
  | legacy : List MainRec × AuxTable → NdaxOut
  | fixedBlock : List FinalRow → NdaxOut
deriving DecidableEq, Repr

/-- The legacy branch of `read_ndax` (`read_ndc` on `data.ndc`; the
auxiliary-file loop over the zip namelist is container glue outside the
modelled core). -/
def legacyPath (mdict : List (Int × ℚ)) (sdict : List (Int × String))
    (data : List Nat) : Except String NdaxOut :=
  match read_ndc mdict sdict data with
  | some res => .ok (.legacy res)
  | none => .error "decode error"

/-- The revision-8 branch of `read_ndax`: the three fixed-block scans
followed by the merge. -/
def fixedBlockPath (sdict : List (Int × String))
    (data runInfoBuf stepBuf : List Nat) : Except String NdaxOut :=
  match read_ndc_8 data, read_data_runInfo_ndc8 runInfoBuf,
        read_data_step_ndc8 sdict stepBuf with
  | some d, some r, some s =>
    match mergeNdax d r s with
    | some out => .ok (.fixedBlock out)
    | none => .error "decode error"
  | _, _, _ => .error "decode error"

/-- The routing of `read_ndax` on the format-revision character
`int(server[14])`: revisions above 8 are rejected with
`NotImplementedError` before `data.ndc` is even extracted, revision 8 takes
the fixed-block path, revisions ≤ 7 the legacy path. -/
def read_ndax (mdict : List (Int × ℚ)) (sdict : List (Int × String))
    (rev : Nat) (data runInfoBuf stepBuf : List Nat) : Except String NdaxOut :=
  if rev > 8 then .error "not yet supported"
  else if rev > 7 then fixedBlockPath sdict data runInfoBuf stepBuf
  else legacyPath mdict sdict data

/-! ## Properties of the legacy output assembly -/

theorem dedupByIndex_subset : ∀ l, ∀ r ∈ dedupByIndex l, r ∈ l := by
  intro l
  induction l using dedupByIndex.induct with
  | case1 => intro r hr; simp [dedupByIndex] at hr
  | case2 r rs ih =>
    intro x hx
    rw [dedupByIndex] at hx
    rcases List.mem_cons.mp hx with h | h
    · rw [h]; exact List.mem_cons_self _ _
    · exact List.mem_cons_of_mem _ (List.mem_of_mem_filter (ih _ h))

theorem dedupByIndex_nodup : ∀ l, ((dedupByIndex l).map (fun r => r.Index)).Nodup := by
  intro l
  induction l using dedupByIndex.induct with
  | case1 => simp [dedupByIndex]
  | case2 r rs ih =>
    rw [dedupByIndex]
    simp only [List.map_cons, List.nodup_cons]
    refine ⟨?_, ih⟩
    intro hmem
    rcases List.mem_map.mp hmem with ⟨x, hx, hidx⟩
    have hxf := dedupByIndex_subset _ x hx
    have := List.of_mem_filter hxf
    simp at this
    exact this hidx

theorem dedupByIndex_first : ∀ l, ∀ r ∈ dedupByIndex l,
    (l.filter (fun x => x.Index == r.Index)).head? = some r := by
  intro l
  induction l using dedupByIndex.induct with
  | case1 => intro r hr; simp [dedupByIndex] at hr
  | case2 r rs ih =>
    intro x hx
    rw [dedupByIndex] at hx
    rcases List.mem_cons.mp hx with h | h
    · subst h
      rw [List.filter_cons_of_pos (by simp)]
      rfl
    · have hxne : x.Index ≠ r.Index := by
        have hxf := dedupByIndex_subset _ x h
        have := List.of_mem_filter hxf
        simpa using this
      rw [List.filter_cons_of_neg (by simpa using fun hc => hxne hc.symm)]
      have hfeq : rs.filter (fun y => y.Index == x.Index) =
          (rs.filter (fun y => y.Index != r.Index)).filter
            (fun y => y.Index == x.Index) := by
        rw [List.filter_filter]
        refine (List.filter_congr ?_).symm
        intro y _
        by_cases hy : y.Index = x.Index
        · simp [hy, hxne]
        · simp [hy]
      rw [hfeq]
      exact ih x h

/-- `MainRec` ordering by Index is total and transitive (for sorting). -/
instance : IsTotal MainRec (fun a b => a.Index ≤ b.Index) :=
  ⟨fun a b => Nat.le_total a.Index b.Index⟩

instance : IsTrans MainRec (fun a b => a.Index ≤ b.Index) :=
  ⟨fun _ _ _ hab hbc => Nat.le_trans hab hbc⟩

theorem assembleMain_mem_iff (l : List MainRec) (r : MainRec) :
    r ∈ assembleMain l ↔ r ∈ dedupByIndex l := by
  rw [assembleMain]
  split
  · exact Iff.rfl
  · exact (List.perm_insertionSort _ _).mem_iff

theorem assembleMain_pairwise (l : List MainRec) :
    ((assembleMain l).map (fun r => r.Index)).Pairwise (· < ·) := by
  have hlift : ∀ d : List MainRec, ((d.map (fun r => r.Index)).Nodup) →
      d.Pairwise (fun a b => a.Index ≤ b.Index) →
      ((d.map (fun r => r.Index)).Pairwise (· < ·)) := by
    intro d hnd hle
    have hne : d.Pairwise (fun a b => a.Index ≠ b.Index) := List.pairwise_map.mp hnd
    have := hle.and hne
    rw [List.pairwise_map]
    exact this.imp (fun h => Nat.lt_of_le_of_ne h.1 h.2)
  rw [assembleMain]
  split
  · rename_i hmono
    refine hlift _ (dedupByIndex_nodup l) ?_
    rw [isMonoIdx] at hmono
    have hch := of_decide_eq_true hmono
    exact List.chain'_iff_pairwise.mp hch
  · refine hlift _ ?_ ?_
    · have hperm := (List.perm_insertionSort
        (fun a b : MainRec => a.Index ≤ b.Index) (dedupByIndex l)).map
        (fun r => r.Index)
      exact hperm.nodup_iff.mpr (dedupByIndex_nodup l)
    · exact List.sorted_insertionSort _ _

theorem assembleMain_first (l : List MainRec) :
    ∀ r ∈ assembleMain l, (l.filter (fun x => x.Index == r.Index)).head? = some r := by
  intro r hr
  exact dedupByIndex_first l r ((assembleMain_mem_iff l r).mp hr)

/-! ## Homogeneity of the legacy scan (all records share the identifier) -/

theorem aux65_variant {bs : List Nat} {a : AuxRec}
    (h : aux_bytes_65_to_list_ndc bs = some a) : a.variant = 0x65 := by
  simp only [aux_bytes_65_to_list_ndc, Option.bind_eq_some, Option.some.injEq] at h
  obtain ⟨_, _, _, _, _, _, _, _, ha⟩ := h
  rw [← ha]

theorem aux74_variant {bs : List Nat} {a : AuxRec}
    (h : aux_bytes_74_to_list_ndc bs = some a) : a.variant = 0x74 := by
  simp only [aux_bytes_74_to_list_ndc, Option.bind_eq_some, Option.some.injEq] at h
  obtain ⟨_, _, _, _, _, _, _, _, _, _, ha⟩ := h
  rw [← ha]

theorem readNdcDispatch_mono {md : List (Int × ℚ)} {sd : List (Int × String)}
    {slice : List Nat} {acc acc2 : List MainRec × List AuxRec}
    (h : readNdcDispatch md sd slice acc = some acc2) :
    ∀ r ∈ acc.2, r ∈ acc2.2 := by
  rw [readNdcDispatch] at h
  split at h
  · cases hb : bytes_to_list_ndc md sd slice with
    | none => rw [hb] at h; exact absurd h (by simp)
    | some m =>
      rw [hb] at h
      injection h with h2
      rw [← h2]
      intro r hr; exact hr
  · split at h
    · cases hb : aux_bytes_65_to_list_ndc slice with
      | none => rw [hb] at h; exact absurd h (by simp)
      | some a =>
        rw [hb] at h
        injection h with h2
        rw [← h2]
        intro r hr; exact List.mem_append_left _ hr
    · split at h
      · cases hb : aux_bytes_74_to_list_ndc slice with
        | none => rw [hb] at h; exact absurd h (by simp)
        | some a =>
          rw [hb] at h
          injection h with h2
          rw [← h2]
          intro r hr; exact List.mem_append_left _ hr
      · injection h with h2
        rw [← h2]
        intro r hr; exact hr

theorem readNdcDispatch_variant {md : List (Int × ℚ)} {sd : List (Int × String)}
    {slice : List Nat} {acc acc2 : List MainRec × List AuxRec}
    (h : readNdcDispatch md sd slice acc = some acc2) :
    ∀ r ∈ acc2.2, r ∈ acc.2 ∨ slice.head? = some r.variant := by
  rw [readNdcDispatch] at h
  split at h
  · cases hb : bytes_to_list_ndc md sd slice with
    | none => rw [hb] at h; exact absurd h (by simp)
    | some m =>
      rw [hb] at h
      injection h with h2
      rw [← h2]
      intro r hr; exact Or.inl hr
  · rename_i hc1
    split at h
    · rename_i hc2
      cases hb : aux_bytes_65_to_list_ndc slice with
      | none => rw [hb] at h; exact absurd h (by simp)
      | some a =>
        rw [hb] at h
        injection h with h2
        rw [← h2]
        intro r hr
        rcases List.mem_append.mp hr with hl | hr2
        · exact Or.inl hl
        · have : r = a := by simpa using hr2
          subst this
          rw [aux65_variant hb]
          exact Or.inr hc2
    · rename_i hc2
      split at h
      · rename_i hc3
        cases hb : aux_bytes_74_to_list_ndc slice with
        | none => rw [hb] at h; exact absurd h (by simp)
        | some a =>
          rw [hb] at h
          injection h with h2
          rw [← h2]
          intro r hr
          rcases List.mem_append.mp hr with hl | hr2
          · exact Or.inl hl
          · have : r = a := by simpa using hr2
            subst this
            rw [aux74_variant hb]
            exact Or.inr hc3
      · injection h with h2
        rw [← h2]
        intro r hr; exact Or.inl hr

/-- A decoded slice whose first 8 bytes are the identifier has the
identifier's leading byte. -/
theorem take8_head {l ident : List Nat} (h : l.take 8 = ident)
    (hlen : ident.length = 8) : (l.take 94).head? = ident.head? := by
  cases l with
  | nil => rw [← h] at hlen; simp at hlen
  | cons a t => rw [← h]; simp

theorem matchesAt_take {ident buf : List Nat} {p : Nat}
    (hm : matchesAt ident buf p = true) :
    (buf.drop p).take ident.length = ident := by
  rw [matchesAt] at hm
  exact beq_iff_eq.mp hm

theorem readNdcLoop_mono (md : List (Int × ℚ)) (sd : List (Int × String))
    (buf ident : List Nat) :
    ∀ fuel header acc res,
      readNdcLoop md sd buf ident fuel header acc = some res →
      ∀ r ∈ acc.2, r ∈ res.2 := by
  intro fuel
  induction fuel with
  | zero => intro _ _ _ h; exact absurd h (by simp [readNdcLoop])
  | succ fuel ih =>
    intro header acc res h r hr
    rw [readNdcLoop] at h
    cases hd : readNdcDispatch md sd ((buf.drop header).take 94) acc with
    | none => rw [hd] at h; exact absurd h (by simp)
    | some acc2 =>
      rw [hd] at h
      have hr2 : r ∈ acc2.2 := readNdcDispatch_mono hd r hr
      cases hf : findFrom ident buf (header + 94) with
      | none =>
        rw [hf] at h
        injection h with h2
        rw [← h2]
        exact hr2
      | some h2 =>
        rw [hf] at h
        exact ih h2 acc2 res h r hr2

theorem readNdcLoop_variant (md : List (Int × ℚ)) (sd : List (Int × String))
    (buf ident : List Nat) (hlen : ident.length = 8) :
    ∀ fuel header acc res,
      (buf.drop header).take 8 = ident →
      (∀ r ∈ acc.2, some r.variant = ident.head?) →
      readNdcLoop md sd buf ident fuel header acc = some res →
      ∀ r ∈ res.2, some r.variant = ident.head? := by
  intro fuel
  induction fuel with
  | zero => intro _ _ _ _ _ h; exact absurd h (by simp [readNdcLoop])
  | succ fuel ih =>
    intro header acc res hhead hacc h
    rw [readNdcLoop] at h
    cases hd : readNdcDispatch md sd ((buf.drop header).take 94) acc with
    | none => rw [hd] at h; exact absurd h (by simp)
    | some acc2 =>
      rw [hd] at h
      have hacc2 : ∀ r ∈ acc2.2, some r.variant = ident.head? := by
        intro r hr
        rcases readNdcDispatch_variant hd r hr with hold | hc
        · exact hacc r hold
        · rw [← hc]
          exact take8_head hhead hlen
      cases hf : findFrom ident buf (header + 94) with
      | none =>
        rw [hf] at h
        injection h with h2
        rw [← h2]
        exact hacc2
      | some h2 =>
        rw [hf] at h
        have htake := matchesAt_take (findFrom_some hf).2
        rw [hlen] at htake
        exact ih h2 acc2 res htake hacc2 h

theorem readNdcLoop_first_aux (md : List (Int × ℚ)) (sd : List (Int × String))
    (buf ident : List Nat) (hlen : ident.length = 8)
    (hv : ident.head? = some 0x65 ∨ ident.head? = some 0x74) :
    ∀ fuel header acc res,
      (buf.drop header).take 8 = ident →
      readNdcLoop md sd buf ident (fuel + 1) header acc = some res →
      res.2 ≠ [] := by
  intro fuel header acc res hhead h
  rw [readNdcLoop] at h
  have hsh : ((buf.drop header).take 94).head? = ident.head? := take8_head hhead hlen
  cases hd : readNdcDispatch md sd ((buf.drop header).take 94) acc with
  | none => rw [hd] at h; exact absurd h (by simp)
  | some acc2 =>
    have hne : acc2.2 ≠ [] := by
      rw [readNdcDispatch] at hd
      rcases hv with h65 | h74
      · rw [if_neg (by simp [hsh, h65]), if_pos (by rw [hsh, h65])] at hd
        cases hb : aux_bytes_65_to_list_ndc ((buf.drop header).take 94) with
        | none => rw [hb] at hd; exact absurd hd (by simp)
        | some a =>
          rw [hb] at hd
          injection hd with hd2
          rw [← hd2]
          simp
      · rw [if_neg (by simp [hsh, h74]), if_neg (by simp [hsh, h74]),
            if_pos (by rw [hsh, h74])] at hd
        cases hb : aux_bytes_74_to_list_ndc ((buf.drop header).take 94) with
        | none => rw [hb] at hd; exact absurd hd (by simp)
        | some a =>
          rw [hb] at hd
          injection hd with hd2
          rw [← hd2]
          simp
    rw [hd] at h
    cases hf : findFrom ident buf (header + 94) with
    | none =>
      rw [hf] at h
      injection h with h2
      rw [← h2]
      exact hne
    | some h2 =>
      rw [hf] at h
      obtain ⟨a, ha⟩ := List.exists_mem_of_ne_nil _ hne
      have hmem := readNdcLoop_mono md sd buf ident fuel h2 acc2 res h a ha
      intro hcon
      rw [hcon] at hmem
      simp at hmem

/-! ## Claim theorems -/

/-- C1: a 94-byte legacy main-record slice with type byte 0x55, a range code
present in the multiplier table, a status code present in the state table and
valid packed calendar fields decodes to the little-endian integers at the
documented offsets with the documented scale factors: voltage = i32@31/10000,
time = u64@23/1000, current = i32@35 × multiplier, capacities/energies =
i64 × multiplier/3600, and the timestamp assembled from the six packed
date/time integers at 75..82; a synthetic slice built from known field
values decodes back to those values. -/
theorem C1_legacy_record_roundtrip (mdict : List (Int × ℚ))
    (sdict : List (Int × String)) (f : RawFields) (mult : ℚ) (st : String)
    (hidx : f.idx < 2 ^ 32) (hcyc : f.cyc < 2 ^ 32) (htime : f.time < 2 ^ 64)
    (hv1 : -(2 ^ 31) ≤ f.volt) (hv2 : f.volt < 2 ^ 31)
    (hc1 : -(2 ^ 31) ≤ f.cur) (hc2 : f.cur < 2 ^ 31)
    (hcc1 : -(2 ^ 63) ≤ f.cc) (hcc2 : f.cc < 2 ^ 63)
    (hdc1 : -(2 ^ 63) ≤ f.dc) (hdc2 : f.dc < 2 ^ 63)
    (hce1 : -(2 ^ 63) ≤ f.ce) (hce2 : f.ce < 2 ^ 63)
    (hde1 : -(2 ^ 63) ≤ f.de) (hde2 : f.de < 2 ^ 63)
    (hY : f.Y < 2 ^ 16)
    (hr1 : -(2 ^ 31) ≤ f.range) (hr2 : f.range < 2 ^ 31)
    (hmul : mdict.lookup f.range = some mult)
    (hst : sdict.lookup (f.status : Int) = some st)
    (hdate : validDate f.Y f.M f.D f.h f.m f.s = true) :
    bytes_to_list_ndc mdict sdict (buildMainSlice f) =
      some { Index := f.idx
             Cycle := f.cyc + 1
             Step := f.step
             Status := st
             Time := (f.time : ℚ) / 1000
             Voltage := (f.volt : ℚ) / 10000
             Current := (f.cur : ℚ) * mult
             Charge_Capacity := (f.cc : ℚ) * mult / 3600
             Discharge_Capacity := (f.dc : ℚ) * mult / 3600
             Charge_Energy := (f.ce : ℚ) * mult / 3600
             Discharge_Energy := (f.de : ℚ) * mult / 3600
             Timestamp := ⟨f.Y, f.M, f.D, f.h, f.m, f.s⟩ } :=
  decode_build mdict sdict f mult st hidx hcyc htime hv1 hv2 hc1 hc2
    hcc1 hcc2 hdc1 hdc2 hce1 hce2 hde1 hde2 hY hr1 hr2 hmul hst hdate

/-- C4: the reader routes on the single format-revision character: a revision
≤ 7 takes the legacy single-file ndc path, revision 8 takes the fixed-block
path, and any revision greater than 8 raises a "not supported" error before
any data-file byte is decoded (the same error for every buffer content, with
no fallback decoding). -/
theorem C4_version_routing (mdict : List (Int × ℚ)) (sdict : List (Int × String))
    (rev : Nat) (data runInfoBuf stepBuf : List Nat) :
    (rev ≤ 7 → read_ndax mdict sdict rev data runInfoBuf stepBuf =
        legacyPath mdict sdict data) ∧
    (rev = 8 → read_ndax mdict sdict rev data runInfoBuf stepBuf =
        fixedBlockPath sdict data runInfoBuf stepBuf) ∧
    (8 < rev → read_ndax mdict sdict rev data runInfoBuf stepBuf =
        Except.error "not yet supported") := by
  refine ⟨fun h => ?_, fun h => ?_, fun h => ?_⟩
  · rw [read_ndax, if_neg (by omega), if_neg (by omega)]
  · subst h; rfl
  · rw [read_ndax, if_pos h]

theorem parseMainU_status {bs : List Nat} {u : MainU}
    (hu : parseMainU bs = some u) : readU bs 17 1 = some u.Status := by
  rw [parseMainU] at hu
  simp only [Option.bind_eq_some, Option.some.injEq] at hu
  obtain ⟨a, h1, b, h2, c, h3, d, h4, e, h5, hu⟩ := hu
  rw [← hu]
  exact h4

/-- C6: a record whose range code is missing from the multiplier table, or
whose status code is missing from the state table, fails to decode (KeyError
modelled as `none`): no default multiplier is substituted and no raw numeric
status code is passed downstream; likewise for the fixed-block step scanner's
status lookup. -/
theorem C6_missing_lookup_is_error :
    (∀ (mdict : List (Int × ℚ)) (sdict : List (Int × String))
       (bs : List Nat) (rg : Int),
       readI bs 82 4 = some rg → mdict.lookup rg = none →
       bytes_to_list_ndc mdict sdict bs = none) ∧
    (∀ (mdict : List (Int × ℚ)) (sdict : List (Int × String))
       (bs : List Nat) (stv : Nat),
       readU bs 17 1 = some stv → sdict.lookup (stv : Int) = none →
       bytes_to_list_ndc mdict sdict bs = none) ∧
    (∀ (sdict : List (Int × String)) (s : List Nat),
       toSigned 32 (leVal ((s.drop 4).take 4)) ≠ 0 →
       sdict.lookup (toSigned 8 (leVal ((s.drop 24).take 1))) = none →
       stepRecOfSlice sdict s = none) := by
  refine ⟨?_, ?_, ?_⟩
  · intro mdict sdict bs rg hrg hlk
    rw [bytes_to_list_ndc]
    cases hu : parseMainU bs with
    | none => rfl
    | some u =>
      simp only [Option.some_bind]
      cases hs : parseMainS bs with
      | none => rfl
      | some v =>
        simp only [Option.some_bind]
        cases hd : parseMainD bs with
        | none => rfl
        | some d =>
          simp only [Option.some_bind]
          rw [hrg]
          simp only [Option.some_bind]
          rw [hlk]
          rfl
  · intro mdict sdict bs stv hst hlk
    rw [bytes_to_list_ndc]
    cases hu : parseMainU bs with
    | none => rfl
    | some u =>
      simp only [Option.some_bind]
      cases hs : parseMainS bs with
      | none => rfl
      | some v =>
        simp only [Option.some_bind]
        cases hd : parseMainD bs with
        | none => rfl
        | some d =>
          simp only [Option.some_bind]
          cases hr82 : readI bs 82 4 with
          | none => rfl
          | some rg =>
            simp only [Option.some_bind]
            cases hml : mdict.lookup rg with
            | none => rfl
            | some mult =>
              simp only [Option.some_bind]
              have hst2 := parseMainU_status hu
              have heq : stv = u.Status := by
                have := hst.symm.trans hst2
                exact Option.some.inj this
              rw [← heq, hlk]
              rfl
  · intro sdict s hnz hlk
    simp only [stepRecOfSlice]
    rw [if_neg hnz, hlk]
    rfl

/-- C10: the fixed-block main-sample scanner synthesizes the Index column
itself: the n-th decoded voltage/current pair receives Index = n counting
from 1, so the Index values are exactly the consecutive integers 1..N. -/
theorem C10_ndc8_index_consecutive (buf : List Nat) (rows : List Ndc8Row)
    (h : read_ndc_8 buf = some rows) :
    rows.map (fun r => r.Index) = List.range' 1 rows.length := by
  rw [read_ndc_8] at h
  split at h
  · exact absurd h (by simp)
  · cases hm : mapMOpt (fun b => iterUnpack 8 (pySliceNeg b 132 4))
        (chunksOf 4096 (buf.drop 4096)) with
    | none => rw [hm] at h; exact absurd h (by simp)
    | some blocks =>
      rw [hm] at h
      simp only [Option.map_some', Option.some.injEq] at h
      rw [← h, List.map_map]
      rw [show ((fun r : Ndc8Row => r.Index) ∘
            (fun p : Nat × Nat × Nat => (⟨p.1, p.2.1, p.2.2⟩ : Ndc8Row)))
          = Prod.fst from rfl]
      rw [List.enumFrom_map_fst]
      congr 1
      simp

/-- C5: for every legacy scan result, the assembled main table is obtained by
keeping the first record of each Index (drop_duplicates), sorting by Index
when the deduplicated order is not already monotonic, and its Index column is
strictly increasing (hence unique); no error is raised. -/
theorem C5_legacy_index_unique_sorted (mdict : List (Int × ℚ))
    (sdict : List (Int × String)) (buf : List Nat)
    (out : List MainRec) (aux : List AuxRec)
    (hscan : readNdcScan mdict sdict buf = some (out, aux)) :
    (read_ndc mdict sdict buf).map Prod.fst = some (assembleMain out) ∧
    ((assembleMain out).map (fun r => r.Index)).Pairwise (· < ·) ∧
    (∀ r ∈ assembleMain out,
       (out.filter (fun x => x.Index == r.Index)).head? = some r) := by
  refine ⟨?_, assembleMain_pairwise out, assembleMain_first out⟩
  rw [read_ndc, hscan]
  rfl

/-- C8: the auxiliary table's column set is fixed by which auxiliary variant
the scan observed: variant-A (0x65) records give columns Index/Aux/V/T,
variant-B (0x74) records additionally the aux-time column t, and a scan with
no auxiliary records gives an empty auxiliary table. -/
theorem C8_aux_table_columns (mdict : List (Int × ℚ))
    (sdict : List (Int × String)) (buf : List Nat)
    (out : List MainRec) (aux : List AuxRec)
    (df : List MainRec) (tbl : AuxTable)
    (hlen : 525 ≤ buf.length)
    (hscan : readNdcScan mdict sdict buf = some (out, aux))
    (hout : read_ndc mdict sdict buf = some (df, tbl)) :
    ((∃ r ∈ aux, r.variant = 0x65) →
       tbl = AuxTable.variantA aux ∧ auxColumns tbl = ["Index", "Aux", "V", "T"]) ∧
    ((∃ r ∈ aux, r.variant = 0x74) →
       tbl = AuxTable.variantB aux ∧
         auxColumns tbl = ["Index", "Aux", "V", "T", "t"]) ∧
    (aux = [] → tbl = AuxTable.noAux ∧ auxColumns tbl = []) := by
  have hidlen : ((buf.drop 517).take 8).length = 8 := by
    simp [List.length_take, List.length_drop]
    omega
  rw [readNdcScan, if_neg (by omega)] at hscan
  rw [read_ndc] at hout
  rw [readNdcScan, if_neg (by omega), hscan] at hout
  simp only [Option.map_some', Option.some.injEq, Prod.mk.injEq] at hout
  obtain ⟨hdf, htbl⟩ := hout
  subst htbl
  have hvar : ∀ r ∈ aux, some r.variant = ((buf.drop 517).take 8).head? :=
    readNdcLoop_variant mdict sdict buf ((buf.drop 517).take 8) hidlen
      (buf.length + 1) 517 ([], []) (out, aux) rfl (by simp) hscan
  refine ⟨?_, ?_, ?_⟩
  · rintro ⟨r, hr, hv⟩
    have hh : ((buf.drop 517).take 8).head? = some 0x65 := by
      rw [← hvar r hr, hv]
    rw [if_neg (by simp [hh]), if_pos hh]
    exact ⟨rfl, rfl⟩
  · rintro ⟨r, hr, hv⟩
    have hh : ((buf.drop 517).take 8).head? = some 0x74 := by
      rw [← hvar r hr, hv]
    rw [if_neg (by simp [hh]), if_neg (by simp [hh]), if_pos hh]
    exact ⟨rfl, rfl⟩
  · intro haux
    by_cases h55 : ((buf.drop 517).take 8).head? = some 0x55
    · rw [if_pos h55]; exact ⟨rfl, rfl⟩
    · by_cases h65 : ((buf.drop 517).take 8).head? = some 0x65
      · exfalso
        have := readNdcLoop_first_aux mdict sdict buf ((buf.drop 517).take 8)
          hidlen (Or.inl h65) buf.length 517 ([], []) (out, aux) rfl hscan
        simp [haux] at this
      · by_cases h74 : ((buf.drop 517).take 8).head? = some 0x74
        · exfalso
          have := readNdcLoop_first_aux mdict sdict buf ((buf.drop 517).take 8)
            hidlen (Or.inr h74) buf.length 517 ([], []) (out, aux) rfl hscan
          simp [haux] at this
        · rw [if_neg h55, if_neg h65, if_neg h74]
          exact ⟨rfl, rfl⟩

/-! ## Properties of the run-info step normalization -/

theorem countChangesAux_length : ∀ (t : List Int) (prev : Int) (c : Nat),
    (countChangesAux prev c t).length = t.length := by
  intro t
  induction t with
  | nil => intro _ _; rfl
  | cons x t ih =>
    intro prev c
    by_cases hx : x = prev <;> simp [countChangesAux, hx, ih]

theorem countChanges_length (l : List Int) :
    (countChanges l).length = l.length := by
  cases l with
  | nil => rfl
  | cons x t => simp [countChanges, countChangesAux_length]

theorem countChangesAux_chain : ∀ (t : List Int) (prev : Int) (c : Nat),
    List.Chain (fun p q : Int × Nat => q.2 = p.2 + (if q.1 ≠ p.1 then 1 else 0))
      (prev, c) (t.zip (countChangesAux prev c t)) := by
  intro t
  induction t with
  | nil => intro _ _; exact List.Chain.nil
  | cons x t ih =>
    intro prev c
    by_cases hx : x = prev
    · rw [countChangesAux, if_pos hx]
      refine List.Chain.cons ?_ ?_
      · simp [hx]
      · subst hx; exact ih x c
    · rw [countChangesAux, if_neg hx]
      refine List.Chain.cons ?_ ?_
      · simp [hx]
      · exact ih x (c + 1)

theorem countChanges_chain (l : List Int) :
    List.Chain' (fun p q : Int × Nat => q.2 = p.2 + (if q.1 ≠ p.1 then 1 else 0))
      (l.zip (countChanges l)) := by
  cases l with
  | nil => simp
  | cons x t =>
    rw [countChanges]
    exact countChangesAux_chain t x 1

/-- C3: the run-info scanner replaces the raw Step column (after zero-index
padding rows are dropped) with a counter that starts at 1 and increments
exactly where the raw value differs from the previous record's raw value;
in particular [5,5,5,7,7,9] becomes [1,1,1,2,2,3]. -/
theorem C3_runinfo_step_normalization :
    (∀ (x : Int) (t : List Int), (countChanges (x :: t)).head? = some 1) ∧
    (∀ l : List Int, (countChanges l).length = l.length) ∧
    (∀ l : List Int,
       List.Chain' (fun p q : Int × Nat => q.2 = p.2 + (if q.1 ≠ p.1 then 1 else 0))
         (l.zip (countChanges l))) ∧
    (countChanges [5, 5, 5, 7, 7, 9] = [1, 1, 1, 2, 2, 3]) ∧
    (∀ (buf : List Nat) (rows : List RunInfoRaw),
       read_data_runInfo_raw buf = some rows →
       read_data_runInfo_ndc8 buf = some (applyCountChanges rows)) := by
  refine ⟨fun x t => rfl, countChanges_length, countChanges_chain, by decide, ?_⟩
  intro buf rows h
  rw [read_data_runInfo_ndc8, h]
  rfl

/-! ## Properties of the fixed-block geometry -/

theorem chunksOfAux_props (size : Nat) (hs : size ≠ 0) :
    ∀ fuel (l : List Nat), l.length ≤ fuel → size ∣ l.length →
      (∀ c ∈ chunksOfAux size fuel l, c.length = size) ∧
      (chunksOfAux size fuel l).length * size = l.length := by
  intro fuel
  induction fuel with
  | zero =>
    intro l hl _
    have : l = [] := List.eq_nil_of_length_eq_zero (by omega)
    subst this
    exact ⟨fun c hc => absurd hc (by simp [chunksOfAux]), by simp [chunksOfAux]⟩
  | succ fuel ih =>
    intro l hl hdvd
    cases l with
    | nil =>
      exact ⟨fun c hc => absurd hc (by simp [chunksOfAux]),
             by simp [chunksOfAux]⟩
    | cons a t =>
      have hpos : 0 < (a :: t).length := by simp
      have hle : size ≤ (a :: t).length := Nat.le_of_dvd hpos hdvd
      have hdvd2 : size ∣ ((a :: t).drop size).length := by
        rw [List.length_drop]
        exact Nat.dvd_sub' hdvd dvd_rfl
      have hlen2 : ((a :: t).drop size).length ≤ fuel := by
        rw [List.length_drop]
        simp only [List.length_cons] at hl ⊢
        omega
      have ih2 := ih _ hlen2 hdvd2
      rw [chunksOfAux, if_neg hs]
      constructor
      · intro c hc
        rcases List.mem_cons.mp hc with h | h
        · rw [h, List.length_take]
          omega
        · exact ih2.1 c h
      · rw [List.length_cons, Nat.succ_mul, ih2.2, List.length_drop]
        omega

theorem chunksOf_props (size : Nat) (hs : size ≠ 0) :
    ∀ l : List Nat, size ∣ l.length →
      (∀ c ∈ chunksOf size l, c.length = size) ∧
      (chunksOf size l).length * size = l.length :=
  fun l h => chunksOfAux_props size hs l.length l (Nat.le_refl _) h

theorem mapMOpt_isSome {α β : Type} (f : α → Option β) :
    ∀ l : List α, (∀ a ∈ l, (f a).isSome = true) → (mapMOpt f l).isSome = true := by
  intro l
  induction l with
  | nil => intro _; rfl
  | cons a t ih =>
    intro h
    rw [mapMOpt]
    obtain ⟨b, hb⟩ := Option.isSome_iff_exists.mp (h a (List.mem_cons_self a t))
    obtain ⟨bs, hbs⟩ :=
      Option.isSome_iff_exists.mp (ih (fun x hx => h x (List.mem_cons_of_mem _ hx)))
    simp [hb, hbs]

/-- C9 (amended): each fixed-block scanner decodes only whole sub-records —
every sub-record yielded by the unpacker is exactly the fixed width, and
together they cover exactly the payload bytes — and the scan of a buffer
with a short trailing block terminates cleanly provided each block's payload
length is a multiple of the sub-record width (full 4096-byte blocks always
are: 3960/8, 3901/47, 3959/37); a payload length that is not such a multiple
makes the unpacker raise instead. -/
theorem C9_whole_subrecords_clean_stop :
    (∀ (size : Nat) (payload : List Nat) (slices : List (List Nat)),
       iterUnpack size payload = some slices →
       (∀ s2 ∈ slices, s2.length = size) ∧
       slices.length * size = payload.length) ∧
    (∀ buf : List Nat, 4096 ≤ buf.length →
       (∀ c ∈ chunksOf 4096 (buf.drop 4096), (pySliceNeg c 132 4).length % 8 = 0) →
       (read_ndc_8 buf).isSome = true) ∧
    (∀ buf : List Nat, 4096 ≤ buf.length →
       (∀ c ∈ chunksOf 4096 (buf.drop 4096), (pySliceNeg c 132 63).length % 47 = 0) →
       (read_data_runInfo_raw buf).isSome = true) ∧
    (∀ buf : List Nat, 4096 ≤ buf.length →
       (∀ c ∈ chunksOf 4096 (buf.drop 4096), (pySliceNeg c 132 5).length % 37 = 0) →
       (mapMOpt (fun b => iterUnpack 37 (pySliceNeg b 132 5))
          (chunksOf 4096 (buf.drop 4096))).isSome = true) := by
  have hiter : ∀ (size : Nat) (payload : List Nat) (slices : List (List Nat)),
      iterUnpack size payload = some slices →
      (∀ s2 ∈ slices, s2.length = size) ∧
      slices.length * size = payload.length := by
    intro size payload slices h
    rw [iterUnpack] at h
    split at h
    · rename_i hcond
      injection h with h2
      rw [← h2]
      exact chunksOf_props size hcond.1 payload
        (Nat.dvd_iff_mod_eq_zero.mpr hcond.2)
    · exact absurd h (by simp)
  have hblocks : ∀ (width a b : Nat) (buf : List Nat),
      (∀ c ∈ chunksOf 4096 (buf.drop 4096),
        (pySliceNeg c a b).length % width = 0) → width ≠ 0 →
      (mapMOpt (fun bl => iterUnpack width (pySliceNeg bl a b))
        (chunksOf 4096 (buf.drop 4096))).isSome = true := by
    intro width a b buf hmod hw
    apply mapMOpt_isSome
    intro c hc
    rw [iterUnpack, if_pos ⟨hw, hmod c hc⟩]
    rfl
  refine ⟨hiter, ?_, ?_, ?_⟩
  · intro buf hlen hmod
    obtain ⟨blocks, hb⟩ := Option.isSome_iff_exists.mp
      (hblocks 8 132 4 buf hmod (by norm_num))
    rw [read_ndc_8, if_neg (by omega), hb]
    rfl
  · intro buf hlen hmod
    obtain ⟨blocks, hb⟩ := Option.isSome_iff_exists.mp
      (hblocks 47 132 63 buf hmod (by norm_num))
    rw [read_data_runInfo_raw, if_neg (by omega), hb]
    rfl
  · intro buf hlen hmod
    exact hblocks 37 132 5 buf hmod (by norm_num)

/-- A block no longer than the block size is the single chunk of the scan. -/
theorem chunksOf_of_le {n : Nat} (hn : n ≠ 0) (l : List Nat) (hne : l ≠ [])
    (hle : l.length ≤ n) : chunksOf n l = [l] := by
  cases l with
  | nil => exact absurd rfl hne
  | cons a t =>
    show chunksOfAux n (t.length + 1) (a :: t) = [a :: t]
    rw [chunksOfAux, if_neg hn, List.take_of_length_le hle,
        List.drop_eq_nil_of_le hle, chunksOfAux_nil]

/-- C9 (counterexample): a buffer whose trailing block has 141 bytes (payload
`[132:-4]` of length 5, not a multiple of 8) makes the main-sample scanner
raise a `struct.error` (`none`) instead of stopping cleanly. -/
theorem C9_counterexample :
    (chunksOf 4096 ((List.replicate (4096 + 141) (0 : Nat)).drop 4096)).map
        (fun c => c.length) = [141] ∧
    read_ndc_8 (List.replicate (4096 + 141) 0) = none := by
  have hdrop : (List.replicate (4096 + 141) (0 : Nat)).drop 4096 =
      List.replicate 141 0 := by
    rw [List.drop_replicate]
  have hchunks : chunksOf 4096 (List.replicate 141 (0 : Nat)) =
      [List.replicate 141 0] :=
    chunksOf_of_le (by norm_num) _ (by simp) (by simp)
  have hps : pySliceNeg (List.replicate 141 (0 : Nat)) 132 4 =
      List.replicate 5 0 := by
    rw [pySliceNeg, List.length_replicate, List.take_replicate,
        List.drop_replicate]
    norm_num
  constructor
  · rw [hdrop, hchunks]
    simp
  · rw [read_ndc_8, if_neg (by rw [List.length_replicate]; norm_num), hdrop,
        hchunks, mapMOpt, hps, iterUnpack, if_neg (by simp)]
    rfl

/-! ## Concrete instances for the merge pipeline (C2) -/

def c2Main : List Ndc8Row :=
  [⟨1, 0, 0⟩, ⟨2, 0, 0⟩, ⟨3, 0, 0⟩, ⟨4, 0, 0⟩, ⟨5, 0, 0⟩,
   ⟨6, 0, 0⟩, ⟨7, 0, 0⟩, ⟨8, 0, 0⟩, ⟨9, 0, 0⟩, ⟨10, 0, 0⟩]

/-- Run-info rows with indices {2, 5, 8} (the claim's instance). -/
def c2RunA : List RunInfoRec :=
  [⟨1, 1000, 1, 2⟩, ⟨4, 2000, 2, 5⟩, ⟨10, 2600, 3, 8⟩]

/-- Run-info rows with indices {1, 5, 8} (first main row matched). -/
def c2RunB : List RunInfoRec :=
  [⟨1, 1000, 1, 1⟩, ⟨4, 2000, 2, 5⟩, ⟨10, 2600, 3, 8⟩]

def c2Steps : List StepRec :=
  [⟨1, 1, "Rest", 1⟩, ⟨1, 2, "CC_Chg", 2⟩, ⟨2, 3, "CC_DChg", 3⟩]

/-- C2 (counterexample): with main-sample indices 1..10 and run-info indices
{2,5,8} the merged table does not have 10 rows: the main table is truncated
to the 8 rows with Index ≤ 8, and the assembly then fails outright — the
leading row has no run-info match, forward interpolation leaves its
Timestamp missing, and `.astype(int)` raises on the missing value. -/
theorem C2_counterexample :
    mergeNdax c2Main c2RunA c2Steps = none ∧
    (mergeNdax c2Main c2RunA c2Steps).map (fun l => l.length) ≠ some 10 ∧
    (c2Main.filter (fun r => decide ((r.Index : Int) ≤ 8))).length = 8 := by
  have h1 : mergeNdax c2Main c2RunA c2Steps = none := by with_unfolding_all rfl
  exact ⟨h1, by simp [h1], by decide⟩

/-- C2 (amended): the revision-8 output is assembled by truncating the main
samples to Index ≤ the last run-info Index, left-joining with run-info on
Index, forward-filling Step, linearly interpolating Time and Timestamp
(Timestamp as integer seconds), and left-joining with the step summary on
Step.  For main indices 1..10 and run-info indices {1,5,8} the merged table
has 8 rows (truncated at index 8), Step forward-filled and Time/Timestamp
interpolated between the bracketing known values. -/
theorem C2_merge_pipeline :
    (mergeNdax c2Main c2RunB c2Steps).map (fun l => l.length) = some 8 ∧
    (mergeNdax c2Main c2RunB c2Steps).map (fun l => l.map (fun r => r.Index)) =
      some [1, 2, 3, 4, 5, 6, 7, 8] ∧
    (mergeNdax c2Main c2RunB c2Steps).map (fun l => l.map (fun r => r.Step)) =
      some [some 1, some 1, some 1, some 1, some 2, some 2, some 2, some 3] ∧
    (mergeNdax c2Main c2RunB c2Steps).map (fun l => l.map (fun r => r.Time)) =
      some [some 1, some ((7 : ℚ) / 4), some ((5 : ℚ) / 2), some ((13 : ℚ) / 4),
            some 4, some 6, some 8, some 10] ∧
    (mergeNdax c2Main c2RunB c2Steps).map (fun l => l.map (fun r => r.Timestamp)) =
      some [1000, 1250, 1500, 1750, 2000, 2200, 2400, 2600] ∧
    (mergeNdax c2Main c2RunB c2Steps).map (fun l => l.map (fun r => r.Status)) =
      some [some "Rest", some "Rest", some "Rest", some "Rest", some "CC_Chg",
            some "CC_Chg", some "CC_Chg", some "CC_DChg"] := by
  refine ⟨?_, ?_, ?_, ?_, ?_, ?_⟩ <;> with_unfolding_all rfl

/-! ## Concrete instances for the legacy decoder (C1, C6, C7) -/

def rawC1 : RawFields :=
  { idx := 1, cyc := 0, step := 1, status := 0, time := 3600000, volt := 36000,
    cur := 500, cc := 7200, dc := -3600, ce := 36, de := -72, Y := 2023, M := 5,
    D := 17, h := 12, m := 30, s := 45, range := 0 }

def rawC7 : RawFields :=
  { idx := 1, cyc := 7, step := 1, status := 0, time := 0, volt := 0, cur := 0,
    cc := 0, dc := 0, ce := 0, de := 0, Y := 2020, M := 1, D := 1, h := 0,
    m := 0, s := 0, range := 0 }

/-- C7 (counterexample): the slice with raw cycle 7 at offset 12 decodes to
Cycle = 8, so the decoded cycle field does not equal the raw u32@12. -/
theorem C7_counterexample :
    readU (buildMainSlice rawC7) 12 4 = some 7 ∧
    (bytes_to_list_ndc [((0 : Int), (1 : ℚ))] [((0 : Int), "Rest")]
        (buildMainSlice rawC7)).map (fun r => r.Cycle) = some 8 ∧
    (bytes_to_list_ndc [((0 : Int), (1 : ℚ))] [((0 : Int), "Rest")]
        (buildMainSlice rawC7)).map (fun r => r.Cycle) ≠
      readU (buildMainSlice rawC7) 12 4 := by
  decide

/-- C7 (amended): the decoded cycle field equals the raw unsigned 32-bit
little-endian integer at byte offset 12 of the slice PLUS ONE (the legacy
decoder applies `Cycle + 1`, like the fixed-block step decoder). -/
theorem C7_cycle_offset_by_one (mdict : List (Int × ℚ))
    (sdict : List (Int × String)) (f : RawFields) (mult : ℚ) (st : String)
    (hidx : f.idx < 2 ^ 32) (hcyc : f.cyc < 2 ^ 32) (htime : f.time < 2 ^ 64)
    (hv1 : -(2 ^ 31) ≤ f.volt) (hv2 : f.volt < 2 ^ 31)
    (hc1 : -(2 ^ 31) ≤ f.cur) (hc2 : f.cur < 2 ^ 31)
    (hcc1 : -(2 ^ 63) ≤ f.cc) (hcc2 : f.cc < 2 ^ 63)
    (hdc1 : -(2 ^ 63) ≤ f.dc) (hdc2 : f.dc < 2 ^ 63)
    (hce1 : -(2 ^ 63) ≤ f.ce) (hce2 : f.ce < 2 ^ 63)
    (hde1 : -(2 ^ 63) ≤ f.de) (hde2 : f.de < 2 ^ 63)
    (hY : f.Y < 2 ^ 16)
    (hr1 : -(2 ^ 31) ≤ f.range) (hr2 : f.range < 2 ^ 31)
    (hmul : mdict.lookup f.range = some mult)
    (hst : sdict.lookup (f.status : Int) = some st)
    (hdate : validDate f.Y f.M f.D f.h f.m f.s = true) :
    readU (buildMainSlice f) 12 4 = some f.cyc ∧
    (bytes_to_list_ndc mdict sdict (buildMainSlice f)).map (fun r => r.Cycle) =
      some (f.cyc + 1) := by
  refine ⟨build_cyc f hcyc, ?_⟩
  rw [decode_build mdict sdict f mult st hidx hcyc htime hv1 hv2 hc1 hc2 hcc1
      hcc2 hdc1 hdc2 hce1 hce2 hde1 hde2 hY hr1 hr2 hmul hst hdate]
  rfl

/-! ## Witness data: concrete buffers -/

/-- Two legacy main-record slices (indices 2 then 1, out of order) after the
517-byte preamble; the identifier is `0x55` followed by seven zero bytes. -/
def rawC5a : RawFields :=
  { idx := 2, cyc := 0, step := 1, status := 0, time := 1000, volt := 100,
    cur := 0, cc := 0, dc := 0, ce := 0, de := 0, Y := 2023, M := 1, D := 2,
    h := 3, m := 4, s := 5, range := 0 }

def rawC5b : RawFields :=
  { idx := 1, cyc := 0, step := 1, status := 0, time := 1000, volt := 100,
    cur := 0, cc := 0, dc := 0, ce := 0, de := 0, Y := 2023, M := 1, D := 1,
    h := 3, m := 4, s := 5, range := 0 }

def c5Buf : List Nat :=
  List.replicate 517 0 ++ (buildMainSlice rawC5a ++ buildMainSlice rawC5b)

def c5RecA : MainRec :=
  { Index := 2, Cycle := 1, Step := 1, Status := "Rest", Time := 1,
    Voltage := 1 / 100, Current := 0, Charge_Capacity := 0,
    Discharge_Capacity := 0, Charge_Energy := 0, Discharge_Energy := 0,
    Timestamp := ⟨2023, 1, 2, 3, 4, 5⟩ }

def c5RecB : MainRec :=
  { Index := 1, Cycle := 1, Step := 1, Status := "Rest", Time := 1,
    Voltage := 1 / 100, Current := 0, Charge_Capacity := 0,
    Discharge_Capacity := 0, Charge_Energy := 0, Discharge_Energy := 0,
    Timestamp := ⟨2023, 1, 1, 3, 4, 5⟩ }

/-- The legacy scan of `c5Buf` in decode order (indices 2, 1). -/
def c5Out : List MainRec := [c5RecA, c5RecB]

/-- A variant-A auxiliary slice: type byte 0x65, Aux 2 @3, Index 3 @8,
V 12345 @31, T 217 @41. -/
def c8AuxSlice : List Nat :=
  [0x65, 0, 0, 2] ++ List.replicate 4 0 ++ encW 4 3 ++ List.replicate 19 0 ++
    encI 4 12345 ++ List.replicate 6 0 ++ encI 2 217 ++ List.replicate 51 0

def c8Buf : List Nat := List.replicate 517 0 ++ c8AuxSlice

def c8Aux : List AuxRec :=
  [{ Index := 3, Aux := 2, V := (12345 : ℚ) / 10000, T := (217 : ℚ) / 10,
     t := none, variant := 0x65 }]

/-- One synthetic run-info sub-record (`<i29siii2s`). -/
def riRec (time ts st idx : Int) : List Nat :=
  encI 4 time ++ List.replicate 29 0 ++ encI 4 ts ++ encI 4 st ++ encI 4 idx ++
    List.replicate 2 0

def c3Block : List Nat :=
  List.replicate 132 0 ++
    (riRec 1000 101 5 1 ++ riRec 2000 102 5 2 ++ riRec 3000 103 5 3 ++
     riRec 4000 104 7 4 ++ riRec 5000 105 7 5 ++ riRec 6000 106 9 6) ++
    List.replicate 63 0

def c3Buf : List Nat := List.replicate 4096 0 ++ c3Block

def c3Raw : List RunInfoRaw :=
  [⟨1, 101, 5, 1⟩, ⟨2, 102, 5, 2⟩, ⟨3, 103, 5, 3⟩,
   ⟨4, 104, 7, 4⟩, ⟨5, 105, 7, 5⟩, ⟨6, 106, 9, 6⟩]

def c10Buf : List Nat := List.replicate 4096 0 ++ List.replicate 144 0

/-! ## Witnesses -/

theorem C1_witness :
    bytes_to_list_ndc [((0 : Int), (1 : ℚ))] [((0 : Int), "Rest")]
        (buildMainSlice rawC1) =
      some { Index := rawC1.idx
             Cycle := rawC1.cyc + 1
             Step := rawC1.step
             Status := "Rest"
             Time := (rawC1.time : ℚ) / 1000
             Voltage := (rawC1.volt : ℚ) / 10000
             Current := (rawC1.cur : ℚ) * 1
             Charge_Capacity := (rawC1.cc : ℚ) * 1 / 3600
             Discharge_Capacity := (rawC1.dc : ℚ) * 1 / 3600
             Charge_Energy := (rawC1.ce : ℚ) * 1 / 3600
             Discharge_Energy := (rawC1.de : ℚ) * 1 / 3600
             Timestamp := ⟨rawC1.Y, rawC1.M, rawC1.D, rawC1.h, rawC1.m, rawC1.s⟩ } :=
  C1_legacy_record_roundtrip [((0 : Int), (1 : ℚ))] [((0 : Int), "Rest")] rawC1
    1 "Rest" (by decide) (by decide) (by decide) (by decide) (by decide)
    (by decide) (by decide) (by decide) (by decide) (by decide) (by decide)
    (by decide) (by decide) (by decide) (by decide) (by decide) (by decide)
    (by decide) rfl rfl (by decide)

theorem C3_witness :
    read_data_runInfo_ndc8 c3Buf = some (applyCountChanges c3Raw) ∧
    (applyCountChanges c3Raw).map (fun r => r.Step) = [1, 1, 1, 2, 2, 3] := by
  have hdrop : c3Buf.drop 4096 = c3Block := by
    show (List.replicate 4096 0 ++ c3Block).drop 4096 = c3Block
    exact drop_append_len _ _ 4096 (by rw [List.length_replicate])
  have hlen : ¬ c3Buf.length < 4096 := by
    show ¬ (List.replicate 4096 0 ++ c3Block).length < 4096
    rw [List.length_append, List.length_replicate]
    omega
  have hscan : read_data_runInfo_raw c3Buf = some c3Raw := by
    rw [read_data_runInfo_raw, if_neg hlen, hdrop]
    with_unfolding_all rfl
  exact ⟨C3_runinfo_step_normalization.2.2.2.2 c3Buf c3Raw hscan, by decide⟩

theorem C4_witness :
    read_ndax [] [] 5 [] [] [] = legacyPath [] [] [] ∧
    read_ndax [] [] 8 [] [] [] = fixedBlockPath [] [] [] [] ∧
    read_ndax [] [] 9 [] [] [] = Except.error "not yet supported" :=
  ⟨(C4_version_routing [] [] 5 [] [] []).1 (by norm_num),
   (C4_version_routing [] [] 8 [] [] []).2.1 rfl,
   (C4_version_routing [] [] 9 [] [] []).2.2 (by norm_num)⟩

theorem C5_witness :
    (read_ndc [((0 : Int), (1 : ℚ))] [((0 : Int), "Rest")] c5Buf).map Prod.fst =
        some (assembleMain c5Out) ∧
    ((assembleMain c5Out).map (fun r => r.Index)).Pairwise (· < ·) ∧
    (∀ r ∈ assembleMain c5Out,
       (c5Out.filter (fun x => x.Index == r.Index)).head? = some r) :=
  C5_legacy_index_unique_sorted [((0 : Int), (1 : ℚ))] [((0 : Int), "Rest")]
    c5Buf c5Out [] (by with_unfolding_all rfl)

theorem C6_witness :
    bytes_to_list_ndc [] [((0 : Int), "Rest")] (buildMainSlice rawC1) = none ∧
    bytes_to_list_ndc [((0 : Int), (1 : ℚ))] [] (buildMainSlice rawC1) = none ∧
    stepRecOfSlice [] (List.replicate 37 1) = none :=
  ⟨C6_missing_lookup_is_error.1 [] [((0 : Int), "Rest")] (buildMainSlice rawC1)
     0 (by decide) rfl,
   C6_missing_lookup_is_error.2.1 [((0 : Int), (1 : ℚ))] [] (buildMainSlice rawC1)
     0 (by decide) rfl,
   C6_missing_lookup_is_error.2.2 [] (List.replicate 37 1) (by decide) rfl⟩

theorem C7_witness :
    readU (buildMainSlice rawC1) 12 4 = some rawC1.cyc ∧
    (bytes_to_list_ndc [((0 : Int), (1 : ℚ))] [((0 : Int), "Rest")]
        (buildMainSlice rawC1)).map (fun r => r.Cycle) = some (rawC1.cyc + 1) :=
  C7_cycle_offset_by_one [((0 : Int), (1 : ℚ))] [((0 : Int), "Rest")] rawC1
    1 "Rest" (by decide) (by decide) (by decide) (by decide) (by decide)
    (by decide) (by decide) (by decide) (by decide) (by decide) (by decide)
    (by decide) (by decide) (by decide) (by decide) (by decide) (by decide)
    (by decide) rfl rfl (by decide)

theorem C8_witness :
    ((∃ r ∈ c8Aux, r.variant = 0x65) →
       AuxTable.variantA c8Aux = AuxTable.variantA c8Aux ∧
       auxColumns (AuxTable.variantA c8Aux) = ["Index", "Aux", "V", "T"]) ∧
    ((∃ r ∈ c8Aux, r.variant = 0x74) →
       AuxTable.variantA c8Aux = AuxTable.variantB c8Aux ∧
       auxColumns (AuxTable.variantA c8Aux) = ["Index", "Aux", "V", "T", "t"]) ∧
    (c8Aux = [] →
       AuxTable.variantA c8Aux = AuxTable.noAux ∧
       auxColumns (AuxTable.variantA c8Aux) = []) :=
  C8_aux_table_columns [((0 : Int), (1 : ℚ))] [((0 : Int), "Rest")] c8Buf []
    c8Aux [] (AuxTable.variantA c8Aux) (by decide)
    (by with_unfolding_all rfl)
    (by
      have hscan2 : readNdcScan [((0 : Int), (1 : ℚ))] [((0 : Int), "Rest")]
          c8Buf = some ([], c8Aux) := by with_unfolding_all rfl
      have hasm : assembleMain [] = [] := by
        simp only [assembleMain]
        rw [show dedupByIndex [] = [] from by rw [dedupByIndex]]
        rfl
      rw [read_ndc, hscan2, Option.map_some', hasm]
      with_unfolding_all rfl)

theorem C9_witness :
    ((∀ s2 ∈ chunksOf 8 (List.replicate 16 (0 : Nat)), s2.length = 8) ∧
       (chunksOf 8 (List.replicate 16 (0 : Nat))).length * 8 =
         (List.replicate 16 (0 : Nat)).length) ∧
    (read_ndc_8 (List.replicate 4096 0)).isSome = true ∧
    (read_data_runInfo_raw (List.replicate 4096 0)).isSome = true ∧
    (mapMOpt (fun b => iterUnpack 37 (pySliceNeg b 132 5))
       (chunksOf 4096 ((List.replicate 4096 (0 : Nat)).drop 4096))).isSome = true := by
  have hempty : ∀ w a b2 : Nat,
      ∀ c ∈ chunksOf 4096 ((List.replicate 4096 (0 : Nat)).drop 4096),
      (pySliceNeg c a b2).length % w = 0 := by
    intro w a b2 c hc
    rw [List.drop_replicate, Nat.sub_self, List.replicate_zero] at hc
    exact absurd hc (by rw [show chunksOf 4096 [] = [] from rfl]; simp)
  have hlen : 4096 ≤ (List.replicate 4096 (0 : Nat)).length := by
    rw [List.length_replicate]
  exact ⟨C9_whole_subrecords_clean_stop.1 8 (List.replicate 16 0)
      (chunksOf 8 (List.replicate 16 0)) (by rfl),
    C9_whole_subrecords_clean_stop.2.1 (List.replicate 4096 0) hlen
      (hempty 8 132 4),
    C9_whole_subrecords_clean_stop.2.2.1 (List.replicate 4096 0) hlen
      (hempty 47 132 63),
    C9_whole_subrecords_clean_stop.2.2.2 (List.replicate 4096 0) hlen
      (hempty 37 132 5)⟩

theorem C10_witness :
    [({ Index := 1, VoltageF32 := 0, CurrentF32 := 0 } : Ndc8Row)].map
        (fun r => r.Index) =
      List.range' 1
        [({ Index := 1, VoltageF32 := 0, CurrentF32 := 0 } : Ndc8Row)].length := by
  have hdrop : c10Buf.drop 4096 = List.replicate 144 0 := by
    show (List.replicate 4096 0 ++ List.replicate 144 0).drop 4096 =
      List.replicate 144 0
    exact drop_append_len _ _ 4096 (by rw [List.length_replicate])
  have hguard : ¬ c10Buf.length < 4096 := by
    show ¬ (List.replicate 4096 0 ++ List.replicate 144 0).length < 4096
    rw [List.length_append, List.length_replicate, List.length_replicate]
    omega
  have h : read_ndc_8 c10Buf =
      some [{ Index := 1, VoltageF32 := 0, CurrentF32 := 0 }] := by
    rw [read_ndc_8, if_neg hguard, hdrop]
    with_unfolding_all rfl
  exact C10_ndc8_index_consecutive c10Buf _ h
